import Mathlib

/-!
# Verification of the homie reconciliation engine

A shallow embedding of the dotfiles reconciliation engine (the `Linker`,
path classifier, strategy resolution, template preprocessing and item
enumerator of the `homie` repository) together with theorems settling the
frozen claims about it.

Filesystem state is modelled as an association list from absolute paths
(component lists) to nodes (regular file with content, directory, or
symlink carrying its recorded link value).  Rust `std::fs` calls become
pure functions over that state; fallible calls return `Option`.
-/

namespace Homie

/-- `Strategy` from src/strategy.rs. -/
inductive Strategy where
  | file
  | directory
  | contents
  | copy
deriving DecidableEq, Repr

/-- `Strategy::is_copy` from src/strategy.rs. -/
def Strategy.is_copy : Strategy → Bool
  | .file => false
  | .directory => false
  | .contents => false
  | .copy => true

/-- `Strategy::is_directory_unit` from src/strategy.rs. -/
def Strategy.is_directory_unit : Strategy → Bool
  | .file => false
  | .directory => true
  | .contents => false
  | .copy => true

/-- `ManifestEntry` (declared in the manifest module; used throughout
src/linker.rs): what kind of artifact was produced for a path. -/
inductive ManifestEntry where
  | symlink
  | copy
  | rendered
deriving DecidableEq, Repr

/-- An absolute filesystem path, as its list of components
(`/home/u/.zshrc` is `["home", "u", ".zshrc"]`). -/
abbrev AbsPath := List String

/-- The value recorded inside a symlink: either an absolute path or a
path relative to the symlink's parent directory (what `fs::read_link`
returns). -/
structure LinkValue where
  isAbs : Bool
  comps : List String
deriving DecidableEq, Repr

/-- One filesystem node.  Permission bits are not modelled; no verified
property observes them. -/
inductive Node where
  | file (content : String)
  | dir
  | symlink (lv : LinkValue)
deriving DecidableEq, Repr

/-- Filesystem state: an association list from absolute path to node.
Lookup takes the first binding for a path. -/
abbrev Fs := List (AbsPath × Node)

/-- The node recorded at a path (no symlink traversal): `lstat`. -/
def lookupNode (fs : Fs) (p : AbsPath) : Option Node :=
  (fs.find? (fun e => e.1 == p)).map (·.2)

/-- `Path::is_symlink`: the path itself holds a symlink (no traversal). -/
def isSymlinkB (fs : Fs) (p : AbsPath) : Bool :=
  match lookupNode fs p with
  | some (.symlink _) => true
  | _ => false

/-- `fs::read_link`: the link value stored at a symlink. -/
def readLink (fs : Fs) (p : AbsPath) : Option LinkValue :=
  match lookupNode fs p with
  | some (.symlink lv) => some lv
  | _ => none

/-- Resolve a symlink's recorded value against the symlink's location:
absolute values stand alone, relative ones are joined onto the symlink's
parent directory (src/linker.rs, the `resolved` computation). -/
def resolvedOf (target : AbsPath) (lv : LinkValue) : AbsPath :=
  if lv.isAbs then lv.comps else target.dropLast ++ lv.comps

/-- Follow the symlink chain starting at `p` until a non-symlink node is
reached; `fuel` bounds the walk (a cycle, like `ELOOP`, yields `none`). -/
def resolveNode (fs : Fs) : Nat → AbsPath → Option (AbsPath × Node)
  | 0, _ => none
  | fuel + 1, p =>
    match lookupNode fs p with
    | some (.symlink lv) => resolveNode fs fuel (resolvedOf p lv)
    | some n => some (p, n)
    | none => none

/-- Default fuel: one more than the number of filesystem entries, enough
to traverse any acyclic symlink chain. -/
def defaultFuel (fs : Fs) : Nat := fs.length + 1

/-- `Path::exists`: follows symlinks; true when the chain ends at a
present node. -/
def pexists (fs : Fs) (p : AbsPath) : Bool :=
  (resolveNode fs (defaultFuel fs) p).isSome

/-- `Path::is_dir`: follows symlinks. -/
def isDirB (fs : Fs) (p : AbsPath) : Bool :=
  match resolveNode fs (defaultFuel fs) p with
  | some (_, .dir) => true
  | _ => false

/-- `Path::is_file`: follows symlinks. -/
def isFileB (fs : Fs) (p : AbsPath) : Bool :=
  match resolveNode fs (defaultFuel fs) p with
  | some (_, .file _) => true
  | _ => false

/-- `fs::read_to_string` / `fs::read`: follows symlinks to a regular
file's content. -/
def readToString (fs : Fs) (p : AbsPath) : Option String :=
  match resolveNode fs (defaultFuel fs) p with
  | some (_, .file c) => some c
  | _ => none

/-- `Path::canonicalize` as used on an existing symlink source: the path
at the end of its chain. -/
def canonicalize (fs : Fs) (p : AbsPath) : Option AbsPath :=
  (resolveNode fs (defaultFuel fs) p).map (·.1)

/-- Drop every binding for exactly `p`. -/
def eraseKey (fs : Fs) (p : AbsPath) : Fs :=
  fs.filter (fun e => !(e.1 == p))

/-- Bind `p` to `n`, replacing any previous binding. -/
def insertNode (fs : Fs) (p : AbsPath) (n : Node) : Fs :=
  (p, n) :: eraseKey fs p

/-- `fs::remove_file`: removes a regular file or a symlink itself; fails
on a directory or a missing path. -/
def removeFile (fs : Fs) (p : AbsPath) : Option Fs :=
  match lookupNode fs p with
  | some (.file _) => some (eraseKey fs p)
  | some (.symlink _) => some (eraseKey fs p)
  | _ => none

/-- `fs::remove_dir_all`: removes a real directory and everything below
it; fails when `p` is not a directory (including when it is a symlink). -/
def removeDirAll (fs : Fs) (p : AbsPath) : Option Fs :=
  match lookupNode fs p with
  | some .dir => some (fs.filter (fun e => !(p.isPrefixOf e.1)))
  | _ => none

/-- `fs::rename src dst`: re-keys `src` and everything below it onto
`dst`, replacing anything previously at `dst`. -/
def renamePath (fs : Fs) (src dst : AbsPath) : Fs :=
  (fs.filter (fun e => !(dst.isPrefixOf e.1))).map
    (fun e => if src.isPrefixOf e.1 then (dst ++ e.1.drop src.length, e.2) else e)

/-- The non-empty prefixes of a path, shortest first. -/
def prefixesOf (p : AbsPath) : List AbsPath :=
  (List.range p.length).map (fun i => p.take (i + 1))

/-- `fs::create_dir_all`: a directory node appears at every prefix of
`p` that had no binding. -/
def mkdirAll (fs : Fs) (p : AbsPath) : Fs :=
  ((prefixesOf p).filter (fun q => (lookupNode fs q).isNone)).map
    (fun q => (q, Node.dir)) ++ fs

/-- `Path::parent` (up to the root). -/
def parentOf (p : AbsPath) : AbsPath := p.dropLast

/-- `Path::display` for an absolute path. -/
def showPath (p : AbsPath) : String := "/" ++ String.intercalate "/" p

/-! ## The `glob` crate (external collaborator)

`RepoConfig::is_ignored`, `RepoConfig::strategy_for_path` and
`Import::includes_path` delegate to `glob::Pattern` with default match
options, under which `*` and `?` may match the path separator.  The
pattern language: `?` one character, `*` any sequence, `**` (only as a
whole component) any sequence of components, bracketed character classes
with ranges and `!` negation; `Pattern::new` rejects misplaced `**`. -/

/-- One compiled glob pattern token. -/
inductive GlobTok where
  | lit (c : Char)
  | anyChar
  | anySeq
  | charClass (neg : Bool) (ranges : List (Char × Char))
deriving DecidableEq, Repr

/-- Parse the items of a bracketed character class, up to the closing
bracket; returns the ranges and the remaining input. -/
def parseClassItems : List Char → Option (List (Char × Char) × List Char)
  | [] => none
  | ']' :: rest => some ([], rest)
  | a :: '-' :: ']' :: rest => some ([(a, a), ('-', '-')], rest)
  | a :: '-' :: b :: rest =>
    (parseClassItems rest).map (fun s => ((a, b) :: s.1, s.2))
  | a :: rest =>
    (parseClassItems rest).map (fun s => ((a, a) :: s.1, s.2))

/-- Parse a character class body (after the opening bracket): an
optional leading `!`, then at least one item. -/
def parseCharClass (cs : List Char) : Option (Bool × List (Char × Char) × List Char) :=
  match cs with
  | '!' :: rest =>
    (parseClassItems rest).bind
      (fun s => if s.1.isEmpty then none else some (true, s.1, s.2))
  | _ =>
    (parseClassItems cs).bind
      (fun s => if s.1.isEmpty then none else some (false, s.1, s.2))

/-- Compile a glob pattern to tokens.  `afterSep` records whether the
position follows the pattern start or a separator, where alone `**` is
legal; `fuel` bounds the recursion (one unit per consumed character is
enough). -/
def globParseAux : Nat → List Char → Bool → Option (List GlobTok)
  | 0, [], _ => some []
  | 0, _ :: _, _ => none
  | _ + 1, [], _ => some []
  | f + 1, '?' :: rest, _ =>
    (globParseAux f rest false).map (GlobTok.anyChar :: ·)
  | f + 1, '*' :: '*' :: rest, afterSep =>
    if afterSep then
      match rest with
      | [] => some [GlobTok.anySeq]
      | '/' :: rest' => (globParseAux f rest' true).map (GlobTok.anySeq :: ·)
      | _ => none
    else none
  | f + 1, '*' :: rest, _ =>
    (globParseAux f rest false).map (GlobTok.anySeq :: ·)
  | f + 1, '[' :: rest, _ =>
    match parseCharClass rest with
    | some (neg, ranges, rest') =>
      (globParseAux f rest' false).map (GlobTok.charClass neg ranges :: ·)
    | none => none
  | f + 1, '/' :: rest, _ =>
    (globParseAux f rest true).map (GlobTok.lit '/' :: ·)
  | f + 1, c :: rest, _ =>
    (globParseAux f rest false).map (GlobTok.lit c :: ·)

/-- `glob::Pattern::new`: `none` models a pattern error. -/
def globParse (pattern : List Char) : Option (List GlobTok) :=
  globParseAux pattern.length pattern true

/-- Character-class membership. -/
def inClass (ranges : List (Char × Char)) (c : Char) : Bool :=
  ranges.any (fun r => r.1 ≤ c && c ≤ r.2)

/-- The matcher's recursion, bounded by fuel (every step shortens the
token list or the character list, so tokens-plus-characters-plus-one
steps always reach a base case). -/
def globMatchToksF : Nat → List GlobTok → List Char → Bool
  | 0, _, _ => false
  | _ + 1, [], [] => true
  | _ + 1, [], _ :: _ => false
  | f + 1, .lit c :: ts', d :: ds' => c == d && globMatchToksF f ts' ds'
  | f + 1, .anyChar :: ts', _ :: ds' => globMatchToksF f ts' ds'
  | f + 1, .anySeq :: ts', [] => globMatchToksF f ts' []
  | f + 1, .anySeq :: ts', d :: ds' =>
    globMatchToksF f ts' (d :: ds') || globMatchToksF f (.anySeq :: ts') ds'
  | f + 1, .charClass neg ranges :: ts', d :: ds' =>
    (inClass ranges d != neg) && globMatchToksF f ts' ds'
  | _ + 1, _ :: _, [] => false

/-- `glob::Pattern::matches` under the default match options. -/
def globMatchToks (ts : List GlobTok) (ds : List Char) : Bool :=
  globMatchToksF (ts.length + ds.length + 1) ts ds

/-- `glob_match` from src/config.rs: compiled-pattern match, with exact
string comparison as the fallback for an invalid pattern. -/
def glob_match (pattern path : String) : Bool :=
  match globParse pattern.toList with
  | some toks => globMatchToks toks path.toList
  | none => pattern == path

/-! ## src/config.rs -/

/-- The built-in ignore patterns (`DEFAULT_IGNORES`). -/
def DEFAULT_IGNORES : List String :=
  ["homie.toml", ".git", ".git/**", ".homie", ".homie/**", ".DS_Store",
   "**/.DS_Store", "README.md", "README", "LICENSE", "LICENSE.md", ".gitignore"]

/-- `RepoConfig::is_ignored`. -/
def is_ignored (userIgnores : List String) (path : String) : Bool :=
  DEFAULT_IGNORES.any (fun p => glob_match p path)
    || userIgnores.any (fun p => glob_match p path)

/-- Rust `str::starts_with` (byte prefix; equivalently character-list
prefix for UTF-8 text). -/
def strStartsWith (s pre : String) : Bool := pre.toList.isPrefixOf s.toList

/-- `RepoConfig::strategy_for_path`.  The `strategies` table is a Rust
`HashMap`, so its entries arrive in an arbitrary iteration order that is
unrelated to the declaration order in the configuration file; the
embedding takes them as a list in one such iteration order. -/
def strategy_for_path (strategies : List (String × Strategy)) (defaultStrategy : Strategy) (path : String) : Strategy :=
  match strategies with
  | [] => defaultStrategy
  | (pattern, strat) :: rest =>
    if strStartsWith path pattern || glob_match pattern path then strat
    else strategy_for_path rest defaultStrategy path

/-- Strategy resolution as the spec words it, for comparison with
`strategy_for_path`: the first override whose pattern matches the path
exactly or as a glob, taking the overrides in declaration order; the
default when no override matches. -/
def strategy_for_path_spec (strategies : List (String × Strategy)) (defaultStrategy : Strategy) (path : String) : Strategy :=
  match strategies with
  | [] => defaultStrategy
  | (pattern, strat) :: rest =>
    if pattern == path || glob_match pattern path then strat
    else strategy_for_path_spec rest defaultStrategy path

/-! ## src/template.rs

`preprocess_template` rewrites the three custom marker forms with three
sequential regex replace-all passes, then hands the result to Handlebars
(external collaborator).  The fixed regexes are embedded as direct
scanners; each has no backtracking point (greedy word and
non-closing-brace runs are final), so a linear scan is exact.  Variable
maps are association lists. -/

/-- `\w` of the embedded regexes. -/
def isWordChar (c : Char) : Bool := c.isAlphanum || c == '_'

/-- `HashMap::get` on a variable map. -/
def varsGet (vars : List (String × String)) (k : String) : Option String :=
  (vars.find? (fun e => e.1 == k)).map (·.2)

/-- `HashMap::contains_key` on a variable map. -/
def containsKey (vars : List (String × String)) (k : String) : Bool :=
  (varsGet vars k).isSome

/-- Open-marker characters (two braces), used to build and to recognise
markers without brace literals in strings. -/
def openBB : List Char := ['{', '{']

/-- Close-marker characters (two braces). -/
def closeBB : List Char := ['}', '}']

/-- Match the env-marker regex at the current position: two braces,
`env.`, a non-empty word, two closing braces.  Returns the captured
name (with the `env.` prefix) and the rest of the input. -/
def tryEnvAt (cs : List Char) : Option (String × List Char) :=
  match cs with
  | '{' :: '{' :: 'e' :: 'n' :: 'v' :: '.' :: cs' =>
    let w := cs'.takeWhile isWordChar
    if w.isEmpty then none
    else
      match cs'.dropWhile isWordChar with
      | '}' :: '}' :: rest => some ("env." ++ String.mk w, rest)
      | _ => none
  | _ => none

/-- The env-marker replace-all pass: each match becomes the bound value,
or empty when the name is unbound. -/
def envPass (vars : List (String × String)) : Nat → List Char → List Char
  | 0, cs => cs
  | _, [] => []
  | f + 1, c :: cs =>
    match tryEnvAt (c :: cs) with
    | some (name, rest) =>
      ((varsGet vars name).getD "").toList ++ envPass vars f rest
    | none => c :: envPass vars f cs

/-- Match the default-marker regex at the current position: two braces,
a non-empty word, a colon, a (possibly empty) run without closing
braces, two closing braces.  Returns the name, the default text and the
rest. -/
def tryDefaultAt (cs : List Char) : Option (String × String × List Char) :=
  match cs with
  | '{' :: '{' :: cs' =>
    let w := cs'.takeWhile isWordChar
    if w.isEmpty then none
    else
      match cs'.dropWhile isWordChar with
      | ':' :: cs'' =>
        let d := cs''.takeWhile (fun c => !(c == '}'))
        match cs''.dropWhile (fun c => !(c == '}')) with
        | '}' :: '}' :: rest => some (String.mk w, String.mk d, rest)
        | _ => none
      | _ => none
  | _ => none

/-- The default-marker replace-all pass: a bound name becomes a plain
marker for the name (re-wrapped in braces), an unbound one becomes the
literal default text. -/
def defaultPass (vars : List (String × String)) : Nat → List Char → List Char
  | 0, cs => cs
  | _, [] => []
  | f + 1, c :: cs =>
    match tryDefaultAt (c :: cs) with
    | some (name, dflt, rest) =>
      (if containsKey vars name then openBB ++ name.toList ++ closeBB
       else dflt.toList) ++ defaultPass vars f rest
    | none => c :: defaultPass vars f cs

/-- Match the optional-marker regex at the current position: two braces,
a non-empty word, a question mark, two closing braces. -/
def tryOptionalAt (cs : List Char) : Option (String × List Char) :=
  match cs with
  | '{' :: '{' :: cs' =>
    let w := cs'.takeWhile isWordChar
    if w.isEmpty then none
    else
      match cs'.dropWhile isWordChar with
      | '?' :: '}' :: '}' :: rest => some (String.mk w, rest)
      | _ => none
  | _ => none

/-- The optional-marker replace-all pass: a bound name becomes a plain
marker for the name, an unbound one becomes nothing. -/
def optionalPass (vars : List (String × String)) : Nat → List Char → List Char
  | 0, cs => cs
  | _, [] => []
  | f + 1, c :: cs =>
    match tryOptionalAt (c :: cs) with
    | some (name, rest) =>
      (if containsKey vars name then openBB ++ name.toList ++ closeBB
       else []) ++ optionalPass vars f rest
    | none => c :: optionalPass vars f cs

/-- `preprocess_template` from src/template.rs: the three passes in
source order (env, then defaults, then optionals). -/
def preprocess_template (template : String) (vars : List (String × String)) : String :=
  let l1 := template.toList
  let l2 := envPass vars l1.length l1
  let l3 := defaultPass vars l2.length l2
  String.mk (optionalPass vars l3.length l3)

/-- Modelled from the spec: the template-substitution collaborator
(Handlebars, non-strict, escaping disabled) is consumed as a plain
`render(text, vars) -> text` capability; a plain brace-wrapped name
renders its bound value, an unbound name renders empty. -/
def hbRender (vars : List (String × String)) : Nat → List Char → List Char
  | 0, cs => cs
  | _, [] => []
  | f + 1, '{' :: '{' :: cs =>
    let w := cs.takeWhile (fun c => !(c == '}'))
    match cs.dropWhile (fun c => !(c == '}')) with
    | '}' :: '}' :: rest =>
      ((varsGet vars (String.mk w)).getD "").toList ++ hbRender vars f rest
    | _ => '{' :: '{' :: hbRender vars f cs
  | f + 1, c :: cs => c :: hbRender vars f cs

/-- `TemplateEngine::render_string` from src/template.rs: preprocess the
custom markers, then render. -/
def render_string (template : String) (vars : List (String × String)) : String :=
  let processed := (preprocess_template template vars).toList
  String.mk (hbRender vars processed.length processed)

/-! ## src/linker.rs -/

/-- `RepoItem`: one logical unit produced by the enumerator.  This is
the canonical shape consumed by `Linker::link_item` and constructed in
the linker's own tests: it carries the item's resolved strategy. -/
structure RepoItem where
  source : AbsPath
  target : AbsPath
  relative_path : String
  is_template : Bool
  strategy : Strategy
deriving DecidableEq, Repr

/-- `LinkOptions` from src/linker.rs. -/
structure LinkOptions where
  dry_run : Bool := false
  force : Bool := false
  verbose : Bool := false
  no_fetch : Bool := false
deriving DecidableEq, Repr

/-- `LinkResult` from src/linker.rs. -/
inductive LinkResult where
  | created (entry : ManifestEntry)
  | alreadyCorrect (entry : ManifestEntry)
  | skipped (reason : String)
  | backedUp (backup_path : AbsPath) (entry : ManifestEntry)
  | unlinked
deriving DecidableEq, Repr

/-- The variant (tag) of a `LinkResult`, without its payload. -/
inductive LinkVariant where
  | created
  | alreadyCorrect
  | skipped
  | backedUp
  | unlinked
deriving DecidableEq, Repr

/-- Project a result onto its variant. -/
def LinkResult.variant : LinkResult → LinkVariant
  | .created _ => .created
  | .alreadyCorrect _ => .alreadyCorrect
  | .skipped _ => .skipped
  | .backedUp _ _ => .backedUp
  | .unlinked => .unlinked

/-- `TargetState` from src/linker.rs. -/
inductive TargetState where
  | notExists
  | symlinkToRepo
  | symlinkToReplaceable
  | symlinkToExternal (resolved : AbsPath)
  | brokenSymlink
  | regularFile
  | directory
deriving DecidableEq, Repr

/-- `classify_target` from src/linker.rs: missing and non-symlink paths
first; a symlink's recorded value is resolved once against the link's
parent, then checked for existence before any containment check. -/
def classify_target (fs : Fs) (target repo_path : AbsPath) (replaceable_paths : List AbsPath) : TargetState :=
  if !(pexists fs target) && !(isSymlinkB fs target) then .notExists
  else
    match readLink fs target with
    | some lv =>
      let resolved := resolvedOf target lv
      if !(pexists fs resolved) then .brokenSymlink
      else if repo_path.isPrefixOf resolved then .symlinkToRepo
      else if replaceable_paths.any (fun p => p.isPrefixOf resolved) then .symlinkToReplaceable
      else .symlinkToExternal resolved
    | none =>
      if isDirB fs target then .directory else .regularFile

/-- `files_are_identical` from src/linker.rs: byte equality of the two
files' contents; an unreadable side is an error. -/
def files_are_identical (fs : Fs) (source target : AbsPath) : Option Bool :=
  match readToString fs source, readToString fs target with
  | some a, some b => some (a == b)
  | _, _ => none

/-- `copy_dir_recursive` from src/linker.rs, as the subtree re-rooted at
the target (per-entry permission propagation and the flattening of inner
symlinks are not observed by any verified property). -/
def copyDirRecursive (fs : Fs) (source target : AbsPath) : Fs :=
  (fs.filterMap (fun e =>
    if source.isPrefixOf e.1 then some (target ++ e.1.drop source.length, e.2) else none))
    ++ mkdirAll fs target

/-- `copy_file_with_perms` from src/linker.rs: copy the source's bytes
to the target (permission bits are not modelled). -/
def copyFileWithPerms (fs : Fs) (source target : AbsPath) : Option Fs := do
  let c ← readToString fs source
  pure (insertNode fs target (.file c))

/-- The `Linker` state: the expanded replaceable roots and the formatted
backup suffix (`chrono` timestamp formatting is an external collaborator;
the field holds its output for the run). -/
structure Linker where
  replaceable_paths : List AbsPath
  backup_suffix : String

/-- `Linker::backup_path`: the target's filename with the suffix
appended, in the target's directory; a path without a filename is an
error. -/
def Linker.backup_path (l : Linker) (p : AbsPath) : Option AbsPath :=
  match p.getLast? with
  | none => none
  | some name => some (p.dropLast ++ [name ++ l.backup_suffix])

/-- `Linker::create_symlink`: under dry-run, report only; otherwise
create parent directories, resolve a symlink source to its real path,
and record the link. -/
def Linker.create_symlink (l : Linker) (fs : Fs) (source target : AbsPath) (options : LinkOptions) : Option (LinkResult × Fs) :=
  if options.dry_run then some (.created .symlink, fs)
  else
    match (if isSymlinkB (mkdirAll fs (parentOf target)) source then
             canonicalize (mkdirAll fs (parentOf target)) source
           else some source) with
    | none => none
    | some resolved_source =>
      some (.created .symlink,
        insertNode (mkdirAll fs (parentOf target)) target
          (.symlink ⟨true, resolved_source⟩))

/-- `Linker::symlink_item`: classify the target and apply the decision
table (error propagation written as explicit matches). -/
def Linker.symlink_item (l : Linker) (fs : Fs) (item : RepoItem) (repo_path : AbsPath) (options : LinkOptions) : Option (LinkResult × Fs) :=
  match classify_target fs item.target repo_path l.replaceable_paths with
  | .notExists => l.create_symlink fs item.source item.target options
  | .symlinkToRepo | .symlinkToReplaceable =>
    (match (if options.dry_run then some fs else removeFile fs item.target) with
     | none => none
     | some fs1 => l.create_symlink fs1 item.source item.target options)
  | .symlinkToExternal p =>
    some (.skipped ("external symlink: " ++ showPath p), fs)
  | .brokenSymlink =>
    (match (if options.dry_run then some fs else removeFile fs item.target) with
     | none => none
     | some fs1 => l.create_symlink fs1 item.source item.target options)
  | .regularFile | .directory =>
    if options.force then
      match l.backup_path item.target with
      | none => none
      | some backup =>
        match l.create_symlink
            (if options.dry_run then fs else renamePath fs item.target backup)
            item.source item.target options with
        | none => none
        | some r => some (.backedUp backup .symlink, r.2)
    else
      some (.skipped "file exists (use --force to backup)", fs)

/-- The tail of `Linker::copy_item` after the target was prepared: under
dry-run report only, else copy a directory recursively or a single file
with its permissions. -/
def copyItemRest (fs : Fs) (item : RepoItem) (options : LinkOptions) : Option (LinkResult × Fs) :=
  if options.dry_run then some (.created .copy, fs)
  else if isDirB fs item.source then
    some (.created .copy, copyDirRecursive fs item.source item.target)
  else do
    let fs1 ← copyFileWithPerms fs item.source item.target
    some (.created .copy, fs1)

/-- `Linker::copy_item`: remove a symlink at the target, replace an
existing directory wholesale, report an identical regular file as
already correct, else copy. -/
def Linker.copy_item (l : Linker) (fs : Fs) (item : RepoItem) (options : LinkOptions) : Option (LinkResult × Fs) :=
  let fs1 := if options.dry_run then fs else mkdirAll fs (parentOf item.target)
  if isSymlinkB fs1 item.target then do
    let fs2 ← if options.dry_run then some fs1 else removeFile fs1 item.target
    copyItemRest fs2 item options
  else if pexists fs1 item.target then
    if isDirB fs1 item.source then do
      let fs2 ← if options.dry_run then some fs1 else removeDirAll fs1 item.target
      copyItemRest fs2 item options
    else do
      let identical ← files_are_identical fs1 item.source item.target
      if identical then some (.alreadyCorrect .copy, fs1)
      else copyItemRest fs1 item options
  else copyItemRest fs1 item options

/-- `Linker::render_template`: render the source through the template
engine; under dry-run report `created` before looking at the target,
otherwise compare with the existing target content and write when it
differs. -/
def Linker.render_template (l : Linker) (fs : Fs) (item : RepoItem) (vars : List (String × String)) (options : LinkOptions) : Option (LinkResult × Fs) := do
  let content ← readToString fs item.source
  let rendered := render_string content vars
  let entry := if item.strategy.is_copy then ManifestEntry.copy else ManifestEntry.rendered
  if options.dry_run then some (.created entry, fs)
  else
    let fs1 := mkdirAll fs (parentOf item.target)
    if pexists fs1 item.target then
      let existing := (readToString fs1 item.target).getD ""
      if existing == rendered then some (.alreadyCorrect entry, fs1)
      else some (.created entry, insertNode fs1 item.target (.file rendered))
    else some (.created entry, insertNode fs1 item.target (.file rendered))

/-- `Linker::link_item`: templates render; a broken-symlink source is
skipped; copy-strategy items copy; everything else symlinks. -/
def Linker.link_item (l : Linker) (fs : Fs) (item : RepoItem) (vars : List (String × String)) (repo_path : AbsPath) (options : LinkOptions) : Option (LinkResult × Fs) :=
  if item.is_template then l.render_template fs item vars options
  else if isSymlinkB fs item.source && !(pexists fs item.source) then
    some (.skipped "source is broken symlink", fs)
  else if item.strategy.is_copy then l.copy_item fs item options
  else l.symlink_item fs item repo_path options

/-- The removal tail shared by `Linker::unlink_item`'s accepting paths:
recursive removal for a real directory, plain removal otherwise, all
skipped under dry-run. -/
def unlinkRemove (fs : Fs) (target : AbsPath) (options : LinkOptions) : Option (LinkResult × Fs) :=
  if options.dry_run then some (.unlinked, fs)
  else if isDirB fs target && !(isSymlinkB fs target) then do
    let fs1 ← removeDirAll fs target
    some (.unlinked, fs1)
  else do
    let fs1 ← removeFile fs target
    some (.unlinked, fs1)

/-- `Linker::unlink_item`: skip a missing target; only remove a symlink
that resolves to the item's own source (templates exempt); never delete
a regular file or directory unless the item is a template or
copy-strategy. -/
def Linker.unlink_item (l : Linker) (fs : Fs) (item : RepoItem) (options : LinkOptions) : Option (LinkResult × Fs) :=
  if !(pexists fs item.target) && !(isSymlinkB fs item.target) then
    some (.skipped "does not exist", fs)
  else
    match readLink fs item.target with
    | some lv =>
      let resolved := resolvedOf item.target lv
      if !(resolved == item.source) && !item.is_template then
        some (.skipped "symlink points elsewhere", fs)
      else unlinkRemove fs item.target options
    | none =>
      if !item.is_template && !item.strategy.is_copy then
        some (.skipped "not a symlink", fs)
      else unlinkRemove fs item.target options

/-- `Linker::unlink_from_manifest`: trust the recorded entry kind.
`symlink` entries require the target still be a symlink, `rendered`
entries a regular file; `copy` entries are removed unconditionally.  All
removal is skipped under dry-run. -/
def Linker.unlink_from_manifest (l : Linker) (fs : Fs) (target : AbsPath) (entry : ManifestEntry) (options : LinkOptions) : Option (LinkResult × Fs) :=
  if !(pexists fs target) && !(isSymlinkB fs target) then
    some (.skipped "does not exist", fs)
  else if options.dry_run then some (.unlinked, fs)
  else
    match entry with
    | .symlink =>
      if isSymlinkB fs target then do
        let fs1 ← removeFile fs target
        some (.unlinked, fs1)
      else some (.skipped "expected symlink, found regular file", fs)
    | .copy =>
      if isDirB fs target && !(isSymlinkB fs target) then do
        let fs1 ← removeDirAll fs target
        some (.unlinked, fs1)
      else do
        let fs1 ← removeFile fs target
        some (.unlinked, fs1)
    | .rendered =>
      if isFileB fs target then do
        let fs1 ← removeFile fs target
        some (.unlinked, fs1)
      else some (.skipped "expected file, found directory", fs)

/-! ## src/repo.rs and src/import.rs -/

/-- Rust `Path::extension` on a single path component: the text after
the last dot, none when there is no dot or when the only dot leads the
name. -/
def extensionOf (name : String) : Option String :=
  let cs := name.toList
  let rext := cs.reverse.takeWhile (fun c => !(c == '.'))
  if rext.length = cs.length then none
  else if cs.length - rext.length - 1 = 0 then none
  else some (String.mk rext.reverse)

/-- Rust `Path::file_stem` on a single path component. -/
def stemOf (name : String) : String :=
  match extensionOf name with
  | none => name
  | some e => String.mk (name.toList.take (name.toList.length - e.toList.length - 1))

/-- The slash-joined form of a relative path (`to_string_lossy` of a
component list). -/
def relStr (rel : List String) : String := String.intercalate "/" rel

/-- The template test from `Repo::collect_items_from`: the source's
extension is the template suffix. -/
def isTemplateName (rel : List String) : Bool :=
  match rel.getLast? with
  | some name => extensionOf name == some "tmpl"
  | none => false

/-- `compute_target` from src/repo.rs: join the relative path onto the
base, stripping the template suffix from the final segment. -/
def compute_target (base : AbsPath) (relative : List String) (is_template : Bool) : AbsPath :=
  let target := base ++ relative
  if is_template then
    match target.getLast? with
    | some name => target.dropLast ++ [stemOf name]
    | none => target
  else target

/-- One entry of the `WalkDir` traversal of a source tree (depth at
least one, parents before children), as the walk order hands it to the
enumerator. -/
structure WalkEntry where
  rel : List String
  isDir : Bool
deriving DecidableEq, Repr

/-- The slice of `RepoConfig` the enumerator consults. -/
structure EnumConfig where
  default_strategy : Strategy
  strategies : List (String × Strategy)
  ignores : List String

/-- The ancestor-containment check from `Repo::collect_items_from`: some
proper, non-empty ancestor of `rel` was already emitted as a unit. -/
def hasProcessedAncestor (processed : List (List String)) (rel : List String) : Bool :=
  processed.any (fun a => !a.isEmpty && a.isPrefixOf rel && a.length < rel.length)

/-- The item built for one accepted walk entry. -/
def mkWalkItem (cfg : EnumConfig) (target_base source_root : AbsPath) (e : WalkEntry) : RepoItem :=
  { source := source_root ++ e.rel
    target := compute_target target_base e.rel (isTemplateName e.rel)
    relative_path := relStr e.rel
    is_template := isTemplateName e.rel
    strategy := strategy_for_path cfg.strategies cfg.default_strategy (relStr e.rel) }

/-- Modelled from the spec: the canonical `Repo::collect_items_from`.
The provided src/repo.rs holds the superseded enumerator variant (its
`RepoItem` lacks the `strategy` field that `Linker::link_item` and the
linker's own tests require); the canonical variant emits a directory as
a single unit exactly when `Strategy::is_directory_unit` holds for its
resolved strategy (src/strategy.rs), records the resolved strategy on
every item, and otherwise follows the provided code: ignored paths are
skipped, descendants of an emitted unit are skipped through the
ancestor-containment check, files are emitted as items, other
directories are passed over. -/
def collect_go (cfg : EnumConfig) (target_base source_root : AbsPath) : List WalkEntry → List (List String) → List RepoItem
  | [], _ => []
  | e :: rest, processed =>
    if is_ignored cfg.ignores (relStr e.rel) then
      collect_go cfg target_base source_root rest processed
    else if hasProcessedAncestor processed e.rel then
      collect_go cfg target_base source_root rest processed
    else if e.isDir then
      if (strategy_for_path cfg.strategies cfg.default_strategy (relStr e.rel)).is_directory_unit then
        mkWalkItem cfg target_base source_root e
          :: collect_go cfg target_base source_root rest (e.rel :: processed)
      else collect_go cfg target_base source_root rest processed
    else
      mkWalkItem cfg target_base source_root e
        :: collect_go cfg target_base source_root rest processed

/-- `Import::includes_path` from src/import.rs: the wildcard pattern,
an exact component match, a directory-prefix match, or a glob match (an
invalid glob pattern matches nothing here). -/
def includes_path (paths : List String) (relative_path : String) : Bool :=
  paths.any (fun pattern =>
    pattern == "*" || relative_path == pattern
      || strStartsWith relative_path (pattern ++ "/")
      || (match globParse pattern.toList with
          | some toks => globMatchToks toks relative_path.toList
          | none => false))

/-- `Import::remap_path` from src/import.rs: the first remap rule whose
`from` is a component prefix rewrites it to `to`; unmatched paths pass
through unchanged. -/
def remap_path (remap : List (List String × List String)) (relative_path : List String) : List String :=
  match remap.find? (fun r => r.1.isPrefixOf relative_path) with
  | some r => r.2 ++ relative_path.drop r.1.length
  | none => relative_path

/-- Split a slash-joined relative path back into components
(`Path::new` on a string). -/
def splitSlashAux : List Char → List Char → List String
  | [], acc => [String.mk acc.reverse]
  | '/' :: rest, acc => String.mk acc.reverse :: splitSlashAux rest []
  | c :: rest, acc => splitSlashAux rest (c :: acc)

/-- The components of a slash-joined relative path. -/
def splitSlash (s : String) : List String := splitSlashAux s.toList []

/-- One resolved import as `Repo::items` consumes it: its include
patterns and remap rules, whether its local tree is present and
enumerable, and the items collected from that tree. -/
structure ImportModel where
  paths : List String
  remap : List (List String × List String)
  source_exists : Bool
  collect_ok : Bool
  items : List RepoItem

/-- The per-import filter of `Repo::items`: keep included items, remap
their relative paths, drop a remapped path already seen, recompute the
target; returns the survivors and the grown seen-set. -/
def import_surviving (target_base : AbsPath) (imp : ImportModel) : List RepoItem → List String → List RepoItem × List String
  | [], seen => ([], seen)
  | item :: rest, seen =>
    if !(includes_path imp.paths item.relative_path) then
      import_surviving target_base imp rest seen
    else
      let remapped := remap_path imp.remap (splitSlash item.relative_path)
      let remapped_str := relStr remapped
      if seen.contains remapped_str then
        import_surviving target_base imp rest seen
      else
        let s := import_surviving target_base imp rest (remapped_str :: seen)
        ({ item with
            target := compute_target target_base remapped item.is_template,
            relative_path := remapped_str } :: s.1,
          s.2)

/-- The import loop of `Repo::items`: an absent or unenumerable import
tree is passed over; each import's survivors extend the seen-set for the
imports after it. -/
def items_go (target_base : AbsPath) : List ImportModel → List String → List RepoItem
  | [], _ => []
  | imp :: rest, seen =>
    if imp.source_exists && imp.collect_ok then
      let s := import_surviving target_base imp imp.items seen
      s.1 ++ items_go target_base rest s.2
    else items_go target_base rest seen

/-- `Repo::items` from src/repo.rs: the native items, every relative
path seeded into the seen-set, followed by each import's surviving
items in declared order. -/
def items_pass (target_base : AbsPath) (native : List RepoItem) (imports : List ImportModel) : List RepoItem :=
  native ++ items_go target_base imports (native.map (·.relative_path))

/-! ## Lemmas about the filesystem model -/

theorem lookupNode_cons (e : AbsPath × Node) (fs : Fs) (q : AbsPath) :
    lookupNode (e :: fs) q = if e.1 = q then some e.2 else lookupNode fs q := by
  by_cases h : e.1 = q
  · simp [lookupNode, List.find?_cons_of_pos, h]
  · simp [lookupNode, List.find?_cons_of_neg, h]

theorem lookupNode_append (fs1 fs2 : Fs) (p : AbsPath) :
    lookupNode (fs1 ++ fs2) p =
      match lookupNode fs1 p with
      | some n => some n
      | none => lookupNode fs2 p := by
  induction fs1 with
  | nil => rfl
  | cons e rest ih =>
    by_cases h : e.1 = p <;> simp [lookupNode_cons, h, ih]

theorem lookupNode_eq_none_iff (fs : Fs) (p : AbsPath) :
    lookupNode fs p = none ↔ ∀ e ∈ fs, e.1 ≠ p := by
  induction fs with
  | nil => simp [lookupNode]
  | cons e rest ih =>
    rw [lookupNode_cons]
    by_cases he : e.1 = p
    · rw [if_pos he]
      constructor
      · intro hcontra; exact absurd hcontra (by simp)
      · intro hall; exact absurd he (hall e (List.mem_cons_self e rest))
    · rw [if_neg he]
      constructor
      · intro hnone a ha
        rcases List.mem_cons.mp ha with rfl | ha'
        · exact he
        · exact ih.mp hnone a ha'
      · intro hall
        exact ih.mpr (fun a ha => hall a (List.mem_cons_of_mem e ha))

theorem lookupNode_eraseKey_ne (fs : Fs) (p q : AbsPath) (h : q ≠ p) :
    lookupNode (eraseKey fs p) q = lookupNode fs q := by
  induction fs with
  | nil => rfl
  | cons e rest ih =>
    simp only [eraseKey] at ih ⊢
    by_cases he : e.1 = p
    · rw [List.filter_cons_of_neg (by simp [he])]
      rw [ih, lookupNode_cons, if_neg (by rw [he]; exact fun hq => h hq.symm)]
    · rw [List.filter_cons_of_pos (by simp [he])]
      rw [lookupNode_cons, lookupNode_cons]
      exact if_congr Iff.rfl rfl ih

theorem lookupNode_insert_self (fs : Fs) (p : AbsPath) (n : Node) :
    lookupNode (insertNode fs p n) p = some n := by
  simp [insertNode, lookupNode_cons]

theorem lookupNode_insert_ne (fs : Fs) (p q : AbsPath) (n : Node) (h : q ≠ p) :
    lookupNode (insertNode fs p n) q = lookupNode fs q := by
  simp only [insertNode, lookupNode_cons]
  rw [if_neg (fun hq => h hq.symm), lookupNode_eraseKey_ne fs p q h]

theorem mkdirAll_nil (fs : Fs) : mkdirAll fs [] = fs := by
  simp [mkdirAll, prefixesOf]

theorem lookupNode_mkdirAll_longer (fs : Fs) (q p : AbsPath) (h : q.length < p.length) :
    lookupNode (mkdirAll fs q) p = lookupNode fs p := by
  have hnone : lookupNode (((prefixesOf q).filter
      (fun r => (lookupNode fs r).isNone)).map (fun r => (r, Node.dir))) p = none := by
    rw [lookupNode_eq_none_iff]
    intro e he
    simp only [List.mem_map, List.mem_filter] at he
    obtain ⟨r, ⟨hr, _⟩, rfl⟩ := he
    simp only [prefixesOf, List.mem_map, List.mem_range] at hr
    obtain ⟨i, hi, rfl⟩ := hr
    have hlen : (q.take (i + 1)).length ≤ q.length := by
      simp [List.length_take]
    have hlt : (q.take (i + 1)).length < p.length := lt_of_le_of_lt hlen h
    show q.take (i + 1) ≠ p
    intro hq
    rw [hq] at hlt
    exact lt_irrefl _ hlt
  rw [mkdirAll, lookupNode_append, hnone]

theorem lookupNode_mkdirAll_of_some (fs : Fs) (q p : AbsPath) (n : Node)
    (h : lookupNode fs p = some n) : lookupNode (mkdirAll fs q) p = some n := by
  have hnone : lookupNode (((prefixesOf q).filter
      (fun r => (lookupNode fs r).isNone)).map (fun r => (r, Node.dir))) p = none := by
    rw [lookupNode_eq_none_iff]
    intro e he
    simp only [List.mem_map, List.mem_filter] at he
    obtain ⟨r, ⟨_, hrnone⟩, rfl⟩ := he
    show r ≠ p
    intro hq
    rw [hq, h] at hrnone
    simp at hrnone
  rw [mkdirAll, lookupNode_append, hnone, h]

theorem lookupNode_mkdirAll_cases (fs : Fs) (q p : AbsPath) :
    lookupNode (mkdirAll fs q) p = lookupNode fs p ∨
      lookupNode (mkdirAll fs q) p = some .dir := by
  cases hfs : lookupNode fs p with
  | some n => exact Or.inl (lookupNode_mkdirAll_of_some fs q p n hfs)
  | none =>
    rw [mkdirAll, lookupNode_append]
    have hblock : ∀ l : List AbsPath,
        lookupNode (l.map (fun r => (r, Node.dir))) p = none ∨
          lookupNode (l.map (fun r => (r, Node.dir))) p = some .dir := by
      intro l
      induction l with
      | nil => exact Or.inl rfl
      | cons a rest ih =>
        by_cases ha : a = p
        · right
          simp [lookupNode_cons, ha]
        · simpa [lookupNode_cons, ha] using ih
    rcases hblock ((prefixesOf q).filter (fun r => (lookupNode fs r).isNone)) with hb | hb
    · rw [hb, hfs]
      exact Or.inl rfl
    · rw [hb]
      exact Or.inr rfl

theorem length_mkdirAll (fs : Fs) (q : AbsPath) : fs.length ≤ (mkdirAll fs q).length := by
  simp [mkdirAll]

theorem resolveNode_fuel_mono (fs : Fs) :
    ∀ (f f' : Nat) (p : AbsPath) (r : AbsPath × Node),
      resolveNode fs f p = some r → f ≤ f' → resolveNode fs f' p = some r := by
  intro f
  induction f with
  | zero => intro f' p r h _; simp [resolveNode] at h
  | succ f ih =>
    intro f' p r h hle
    match f', hle with
    | f' + 1, hle =>
      cases hl : lookupNode fs p with
      | none => simp [resolveNode, hl] at h
      | some n =>
        cases n with
        | symlink lv =>
          simp only [resolveNode, hl] at h ⊢
          exact ih f' (resolvedOf p lv) r h (Nat.succ_le_succ_iff.mp hle)
        | file c => simp only [resolveNode, hl] at h ⊢; exact h
        | dir => simp only [resolveNode, hl] at h ⊢; exact h

theorem resolveNode_mkdirAll (fs : Fs) (q : AbsPath) :
    ∀ (f : Nat) (p : AbsPath) (r : AbsPath × Node),
      resolveNode fs f p = some r → resolveNode (mkdirAll fs q) f p = some r := by
  intro f
  induction f with
  | zero => intro p r h; simp [resolveNode] at h
  | succ f ih =>
    intro p r h
    cases hl : lookupNode fs p with
    | none => simp [resolveNode, hl] at h
    | some n =>
      have hl' := lookupNode_mkdirAll_of_some fs q p n hl
      cases n with
      | symlink lv =>
        simp only [resolveNode, hl, hl'] at h ⊢
        exact ih (resolvedOf p lv) r h
      | file c => simp only [resolveNode, hl, hl'] at h ⊢; exact h
      | dir => simp only [resolveNode, hl, hl'] at h ⊢; exact h

theorem defaultFuel_mkdirAll_le (fs : Fs) (q : AbsPath) :
    defaultFuel fs ≤ defaultFuel (mkdirAll fs q) := by
  simp only [defaultFuel]
  exact Nat.succ_le_succ (length_mkdirAll fs q)

theorem readToString_mkdirAll (fs : Fs) (q p : AbsPath) (c : String)
    (h : readToString fs p = some c) : readToString (mkdirAll fs q) p = some c := by
  rw [readToString] at h
  split at h
  case _ a c' heq =>
    cases h
    have h1 := resolveNode_mkdirAll fs q _ p _ heq
    have h2 := resolveNode_fuel_mono (mkdirAll fs q) _ _ p _ h1
      (defaultFuel_mkdirAll_le fs q)
    rw [readToString, h2]
  case _ => exact absurd h (by simp)

theorem isDirB_mkdirAll (fs : Fs) (q p : AbsPath) (h : isDirB fs p = true) :
    isDirB (mkdirAll fs q) p = true := by
  rw [isDirB] at h
  split at h
  case _ a heq =>
    have h1 := resolveNode_mkdirAll fs q _ p _ heq
    have h2 := resolveNode_fuel_mono (mkdirAll fs q) _ _ p _ h1
      (defaultFuel_mkdirAll_le fs q)
    rw [isDirB, h2]
  case _ => exact absurd h (by simp)

theorem pexists_of_not_symlink (fs : Fs) (p : AbsPath) (h : isSymlinkB fs p = false) :
    pexists fs p = (lookupNode fs p).isSome := by
  rw [pexists, defaultFuel, resolveNode]
  cases hl : lookupNode fs p with
  | none => simp
  | some n =>
    cases n with
    | symlink lv => rw [isSymlinkB, hl] at h; simp at h
    | file c => simp
    | dir => simp

theorem isSymlinkB_mkdirAll_parent (fs : Fs) (t : AbsPath) (p : AbsPath)
    (h : isSymlinkB fs p = false) : isSymlinkB (mkdirAll fs t) p = false := by
  rw [isSymlinkB] at h ⊢
  rcases lookupNode_mkdirAll_cases fs t p with hc | hc
  · rw [hc]; exact h
  · rw [hc]

theorem renamePath_cons (e : AbsPath × Node) (fs : Fs) (src dst : AbsPath) :
    renamePath (e :: fs) src dst =
      if dst.isPrefixOf e.1 = true then renamePath fs src dst
      else
        (if src.isPrefixOf e.1 = true then (dst ++ e.1.drop src.length, e.2) else e)
          :: renamePath fs src dst := by
  simp only [renamePath, List.filter_cons]
  cases hb : List.isPrefixOf dst e.1 <;> simp [hb]

theorem isPrefixOf_self (p : AbsPath) : p.isPrefixOf p = true :=
  List.isPrefixOf_iff_prefix.mpr (List.prefix_refl p)

theorem isPrefixOf_append_self (p q : AbsPath) : p.isPrefixOf (p ++ q) = true :=
  List.isPrefixOf_iff_prefix.mpr (List.prefix_append p q)

theorem lookupNode_rename_other (fs : Fs) (src dst p : AbsPath)
    (hp1 : src.isPrefixOf p = false) (hp2 : dst.isPrefixOf p = false) :
    lookupNode (renamePath fs src dst) p = lookupNode fs p := by
  induction fs with
  | nil => rfl
  | cons e rest ih =>
    rw [renamePath_cons]
    by_cases hd : dst.isPrefixOf e.1 = true
    · rw [if_pos hd]
      have hne : e.1 ≠ p := by
        intro hq; rw [hq] at hd; rw [hd] at hp2; cases hp2
      rw [lookupNode_cons, if_neg hne]
      exact ih
    · rw [if_neg hd]
      by_cases hs : src.isPrefixOf e.1 = true
      · rw [if_pos hs]
        have hkey : dst ++ e.1.drop src.length ≠ p := by
          intro hq
          have hpre : dst.isPrefixOf p = true := by
            rw [← hq]; exact isPrefixOf_append_self dst _
          rw [hpre] at hp2; cases hp2
        have hne : e.1 ≠ p := by
          intro hq; rw [hq] at hs; rw [hs] at hp1; cases hp1
        rw [lookupNode_cons, lookupNode_cons, if_neg hkey, if_neg hne]
        exact ih
      · rw [if_neg hs]
        rw [lookupNode_cons, lookupNode_cons]
        exact if_congr Iff.rfl rfl ih

theorem lookupNode_rename_dst (fs : Fs) (src dst : AbsPath)
    (hds : dst.isPrefixOf src = false) (hsd : src.isPrefixOf dst = false) :
    lookupNode (renamePath fs src dst) dst = lookupNode fs src := by
  induction fs with
  | nil => rfl
  | cons e rest ih =>
    rw [renamePath_cons]
    by_cases hd : dst.isPrefixOf e.1 = true
    · rw [if_pos hd]
      have hne : e.1 ≠ src := by
        intro hq; rw [hq] at hd; rw [hd] at hds; cases hds
      rw [lookupNode_cons, if_neg hne]
      exact ih
    · rw [if_neg hd]
      by_cases hs : src.isPrefixOf e.1 = true
      · rw [if_pos hs]
        by_cases heq : e.1 = src
        · have hdropnil : e.1.drop src.length = [] := by
            rw [heq]; exact List.drop_length src
          rw [lookupNode_cons]
          have hkey : dst ++ e.1.drop src.length = dst := by
            rw [hdropnil, List.append_nil]
          rw [if_pos hkey, lookupNode_cons, if_pos heq]
        · have hpre : src <+: e.1 := List.isPrefixOf_iff_prefix.mp hs
          have hlen : src.length < e.1.length :=
            lt_of_le_of_ne hpre.length_le
              (fun hl => heq (hpre.eq_of_length hl).symm)
          have hkey : dst ++ e.1.drop src.length ≠ dst := by
            intro hq
            have hlq := congrArg List.length hq
            simp only [List.length_append, List.length_drop] at hlq
            omega
          rw [lookupNode_cons, if_neg hkey, lookupNode_cons, if_neg heq]
          exact ih
      · rw [if_neg hs]
        have h1 : e.1 ≠ dst := by
          intro hq; rw [hq, isPrefixOf_self] at hd; exact hd rfl
        have h2 : e.1 ≠ src := by
          intro hq; rw [hq, isPrefixOf_self] at hs; exact hs rfl
        rw [lookupNode_cons, if_neg h1, lookupNode_cons, if_neg h2]
        exact ih

theorem lookupNode_mkdirAll_parent (fs : Fs) (t : AbsPath) :
    lookupNode (mkdirAll fs (parentOf t)) t = lookupNode fs t := by
  cases t with
  | nil => rw [parentOf]; simp [mkdirAll_nil]
  | cons a t' =>
    apply lookupNode_mkdirAll_longer
    have : (parentOf (a :: t')).length < (a :: t').length := by
      simp [parentOf, List.length_dropLast]
    exact this

/-! ## The claims -/

/-- C3: for every target path that is a symlink whose resolved link
value does not exist, the classifier returns `brokenSymlink` — whatever
the repository root and the replaceable roots are, since the existence
check on the resolved value precedes every containment check — and never
one of the three symlink-containment states. -/
theorem claim3_broken_symlink_precedence (fs : Fs) (target repo_path : AbsPath)
    (replaceable_paths : List AbsPath) (lv : LinkValue)
    (hlink : lookupNode fs target = some (.symlink lv))
    (hbroken : pexists fs (resolvedOf target lv) = false) :
    classify_target fs target repo_path replaceable_paths = .brokenSymlink ∧
    classify_target fs target repo_path replaceable_paths ≠ .symlinkToRepo ∧
    classify_target fs target repo_path replaceable_paths ≠ .symlinkToReplaceable ∧
    ∀ r, classify_target fs target repo_path replaceable_paths ≠ .symlinkToExternal r := by
  have hsym : isSymlinkB fs target = true := by rw [isSymlinkB, hlink]
  have hread : readLink fs target = some lv := by rw [readLink, hlink]
  have hc : classify_target fs target repo_path replaceable_paths = .brokenSymlink := by
    simp [classify_target, hsym, hread, hbroken]
  exact ⟨hc, by simp [hc], by simp [hc], by simp [hc]⟩

/-- C3 witness: a symlink to a missing path is classified broken even
when the empty repository root contains (is a prefix of) every resolved
path. -/
theorem claim3_witness :
    classify_target [(["l"], Node.symlink ⟨true, ["gone"]⟩)] ["l"] [] [] =
      .brokenSymlink :=
  (claim3_broken_symlink_precedence [(["l"], Node.symlink ⟨true, ["gone"]⟩)]
    ["l"] [] [] ⟨true, ["gone"]⟩ (by decide) (by decide)).1

/-- C8: the three template-rendering examples — a default marker renders
the bound value when the name is bound and the literal default when it
is not, and an optional marker renders the bound value when bound and
nothing when not. -/
theorem claim8_template_rendering :
    render_string "Hello, \x7b\x7bname:Guest\x7d\x7d!" [] = "Hello, Guest!" ∧
    render_string "Hello, \x7b\x7bname:Guest\x7d\x7d!" [("name", "World")] = "Hello, World!" ∧
    render_string "Hello\x7b\x7bname?\x7d\x7d!" [] = "Hello!" := by
  refine ⟨?_, ?_, ?_⟩ <;> decide

/-- C10: for every target that exists or is a symlink and every manifest
entry kind, a dry-run `unlink_from_manifest` reports `unlinked` — the
entry-kind mismatch checks run only in real runs, so a dry run reports
`unlinked` where the real run on the same state returns `skipped` (shown
on a regular file recorded as a symlink entry). -/
theorem claim10_dry_run_manifest_unlink (l : Linker) (fs : Fs) (target : AbsPath)
    (entry : ManifestEntry) (options : LinkOptions)
    (hdry : options.dry_run = true)
    (hpresent : pexists fs target = true ∨ isSymlinkB fs target = true) :
    l.unlink_from_manifest fs target entry options = some (.unlinked, fs) ∧
    Linker.unlink_from_manifest ⟨[], ""⟩ [(["t"], Node.file "x")] ["t"] .symlink
        ⟨false, false, false, false⟩ =
      some (.skipped "expected symlink, found regular file", [(["t"], Node.file "x")]) := by
  constructor
  · have hcond : (!(pexists fs target) && !(isSymlinkB fs target)) = false := by
      rcases hpresent with h | h <;> simp [h]
    unfold Linker.unlink_from_manifest
    rw [hcond]
    simp [hdry]
  · decide

/-- C10 witness: the dry-run conclusion at the same regular-file state
used for the divergence. -/
theorem claim10_witness :
    Linker.unlink_from_manifest ⟨[], ""⟩ [(["t"], Node.file "x")] ["t"] .symlink
        ⟨true, false, false, false⟩ =
      some (.unlinked, [(["t"], Node.file "x")]) :=
  (claim10_dry_run_manifest_unlink ⟨[], ""⟩ [(["t"], Node.file "x")] ["t"] .symlink
    ⟨true, false, false, false⟩ rfl (Or.inl (by decide))).1

/-- C2 counterexample: a `copy` manifest entry whose target is currently
a symlink is not skipped — the real run reports `unlinked` and deletes
the symlink itself (the lookup at the target afterwards finds nothing),
refuting the claimed kind-mismatch skip. -/
theorem claim2_counterexample :
    Linker.unlink_from_manifest ⟨[], ""⟩
        [(["t"], Node.symlink ⟨true, ["repo", "f"]⟩), (["repo", "f"], Node.file "x")]
        ["t"] .copy ⟨false, false, false, false⟩ =
      some (.unlinked, [(["repo", "f"], Node.file "x")]) ∧
    lookupNode [(["repo", "f"], Node.file "x")] ["t"] = none := by
  exact ⟨by decide, by decide⟩

/-- C2 amended: for every target whose manifest entry is `copy` but
which is currently a symlink, a real (non-dry) `unlink_from_manifest`
returns `unlinked` and removes the symlink itself — `copy` entries carry
no kind-mismatch protection (only `symlink` and `rendered` entries do) —
while every other path is left untouched. -/
theorem claim2_amended_copy_entry_removes_symlink (l : Linker) (fs : Fs)
    (target : AbsPath) (options : LinkOptions) (lv : LinkValue)
    (hdry : options.dry_run = false)
    (hlink : lookupNode fs target = some (.symlink lv)) :
    l.unlink_from_manifest fs target .copy options = some (.unlinked, eraseKey fs target) ∧
    ∀ q, q ≠ target → lookupNode (eraseKey fs target) q = lookupNode fs q := by
  have hsym : isSymlinkB fs target = true := by rw [isSymlinkB, hlink]
  constructor
  · have hcond : (!(pexists fs target) && !(isSymlinkB fs target)) = false := by
      simp [hsym]
    unfold Linker.unlink_from_manifest
    rw [hcond]
    simp [hdry, hsym, removeFile, hlink]
  · exact fun q hq => lookupNode_eraseKey_ne fs target q hq

/-- C2 amended witness: the amended behaviour at the counterexample
state. -/
theorem claim2_amended_witness :
    Linker.unlink_from_manifest ⟨[], ""⟩
        [(["t"], Node.symlink ⟨true, ["repo", "f"]⟩), (["repo", "f"], Node.file "x")]
        ["t"] .copy ⟨false, false, false, false⟩ =
      some (.unlinked, eraseKey
        [(["t"], Node.symlink ⟨true, ["repo", "f"]⟩), (["repo", "f"], Node.file "x")] ["t"]) :=
  (claim2_amended_copy_entry_removes_symlink ⟨[], ""⟩
    [(["t"], Node.symlink ⟨true, ["repo", "f"]⟩), (["repo", "f"], Node.file "x")]
    ["t"] ⟨false, false, false, false⟩ ⟨true, ["repo", "f"]⟩ rfl (by decide)).1

/-- C5 counterexample: strategy resolution does not implement
exact-or-glob matching in declaration order.  A single override with
pattern `a` captures the path `ab` by bare string-prefix matching (the
spec-worded resolver returns the default there), and with two
overlapping patterns the result flips when the map hands them over in
the opposite iteration order — so no declaration-order rule can describe
it. -/
theorem claim5_counterexample :
    strategy_for_path [("a", Strategy.directory)] Strategy.file "ab" = Strategy.directory ∧
    strategy_for_path_spec [("a", Strategy.directory)] Strategy.file "ab" = Strategy.file ∧
    strategy_for_path [("ab", Strategy.copy), ("a", Strategy.directory)] Strategy.file "abc" =
      Strategy.copy ∧
    strategy_for_path [("a", Strategy.directory), ("ab", Strategy.copy)] Strategy.file "abc" =
      Strategy.directory := by
  refine ⟨?_, ?_, ?_, ?_⟩ <;> decide

/-- C5 amended: strategy resolution scans the override table in the
hash map's (unspecified) iteration order and returns the strategy of the
first entry whose pattern is a string prefix of the path or matches it
as a glob; the repository default is returned exactly when no entry
matches. -/
theorem claim5_amended_prefix_or_glob_first_match
    (strategies : List (String × Strategy)) (defaultStrategy : Strategy) (path : String) :
    strategy_for_path strategies defaultStrategy path =
      (match strategies.find? (fun e => strStartsWith path e.1 || glob_match e.1 path) with
       | some e => e.2
       | none => defaultStrategy) ∧
    ((∀ e ∈ strategies, (strStartsWith path e.1 || glob_match e.1 path) = false) →
      strategy_for_path strategies defaultStrategy path = defaultStrategy) := by
  have hmain : strategy_for_path strategies defaultStrategy path =
      (match strategies.find? (fun e => strStartsWith path e.1 || glob_match e.1 path) with
       | some e => e.2
       | none => defaultStrategy) := by
    induction strategies with
    | nil => rfl
    | cons e rest ih =>
      obtain ⟨pattern, strat⟩ := e
      by_cases h : (strStartsWith path pattern || glob_match pattern path) = true
      · have hf : List.find? (fun e => strStartsWith path e.1 || glob_match e.1 path)
            ((pattern, strat) :: rest) = some (pattern, strat) :=
          List.find?_cons_of_pos _ (by simpa using h)
        rw [strategy_for_path, if_pos h, hf]
      · have h' : (strStartsWith path pattern || glob_match pattern path) = false := by
          cases hb : (strStartsWith path pattern || glob_match pattern path)
          · rfl
          · exact absurd hb h
        have hf : List.find? (fun e => strStartsWith path e.1 || glob_match e.1 path)
            ((pattern, strat) :: rest) =
            List.find? (fun e => strStartsWith path e.1 || glob_match e.1 path) rest :=
          List.find?_cons_of_neg _ (by simpa using h')
        rw [strategy_for_path, if_neg h, hf, ih]
  refine ⟨hmain, fun hall => ?_⟩
  rw [hmain, List.find?_eq_none.mpr (fun e he => by simp [hall e he])]

/-- C5 amended witness: a non-matching override falls through to the
default. -/
theorem claim5_amended_witness :
    strategy_for_path [("x", Strategy.copy)] Strategy.file "y" = Strategy.file :=
  (claim5_amended_prefix_or_glob_first_match [("x", Strategy.copy)] Strategy.file "y").2
    (by decide)

/-- C4: during enumeration, a directory entry that is neither ignored
nor below an already-emitted unit is emitted as exactly one item
precisely when its resolved strategy is a directory unit — and
`is_directory_unit` holds exactly for `directory` and `copy` — in which
case its relative path joins the processed set and every descendant
entry is skipped; under any other strategy the directory contributes no
item and enumeration continues into its entries with the processed set
unchanged. -/
theorem claim4_directory_unit (cfg : EnumConfig) (target_base source_root : AbsPath)
    (e : WalkEntry) (rest : List WalkEntry) (processed : List (List String))
    (hig : is_ignored cfg.ignores (relStr e.rel) = false)
    (hanc : hasProcessedAncestor processed e.rel = false)
    (hdir : e.isDir = true) :
    ((strategy_for_path cfg.strategies cfg.default_strategy (relStr e.rel)).is_directory_unit
        = true →
      collect_go cfg target_base source_root (e :: rest) processed =
        mkWalkItem cfg target_base source_root e ::
          collect_go cfg target_base source_root rest (e.rel :: processed)) ∧
    ((strategy_for_path cfg.strategies cfg.default_strategy (relStr e.rel)).is_directory_unit
        = false →
      collect_go cfg target_base source_root (e :: rest) processed =
        collect_go cfg target_base source_root rest processed) ∧
    (∀ (e' : WalkEntry) (rest' : List WalkEntry) (processed' : List (List String)),
      e.rel ∈ processed' → e.rel ≠ [] → e.rel.isPrefixOf e'.rel = true →
      e.rel.length < e'.rel.length →
      collect_go cfg target_base source_root (e' :: rest') processed' =
        collect_go cfg target_base source_root rest' processed') ∧
    (∀ s : Strategy, s.is_directory_unit = true ↔ (s = .directory ∨ s = .copy)) := by
  refine ⟨fun hunit => ?_, fun hunit => ?_,
    fun e' rest' processed' hmem hne hpre hlen => ?_,
    fun s => by cases s <;> simp [Strategy.is_directory_unit]⟩
  · simp [collect_go, hig, hanc, hdir, hunit]
  · simp [collect_go, hig, hanc, hdir, hunit]
  · by_cases hig' : is_ignored cfg.ignores (relStr e'.rel) = true
    · simp [collect_go, hig']
    · have hig'' : is_ignored cfg.ignores (relStr e'.rel) = false := by
        cases hb : is_ignored cfg.ignores (relStr e'.rel)
        · rfl
        · exact absurd hb hig'
      have hempty : e.rel.isEmpty = false := by
        rcases hrel : e.rel with _ | ⟨a, l⟩
        · exact absurd hrel hne
        · rfl
      have hanc' : hasProcessedAncestor processed' e'.rel = true := by
        rw [hasProcessedAncestor, List.any_eq_true]
        exact ⟨e.rel, hmem, by simp [hempty, hpre, hlen]⟩
      simp [collect_go, hig'', hanc']

/-- C4 witness: with a `copy` override for `.config/nvim` the directory
is emitted as the single unit item and its descendant is skipped. -/
theorem claim4_witness :
    collect_go ⟨.file, [(".config/nvim", .copy)], []⟩ ["home"] ["repo"]
        [⟨[".config", "nvim"], true⟩, ⟨[".config", "nvim", "init.lua"], false⟩] [] =
      [mkWalkItem ⟨.file, [(".config/nvim", .copy)], []⟩ ["home"] ["repo"]
        ⟨[".config", "nvim"], true⟩] := by
  have h := claim4_directory_unit ⟨.file, [(".config/nvim", .copy)], []⟩ ["home"] ["repo"]
    ⟨[".config", "nvim"], true⟩ [⟨[".config", "nvim", "init.lua"], false⟩] []
    (by decide) (by decide) rfl
  rw [h.1 (by decide),
    h.2.2.1 ⟨[".config", "nvim", "init.lua"], false⟩ [] [[".config", "nvim"]]
      (by decide) (by decide) (by decide) (by decide)]
  rfl

theorem contains_iff_mem_str (l : List String) (a : String) :
    l.contains a = true ↔ a ∈ l :=
  List.elem_iff

/-- The per-import filter keeps relative paths pairwise distinct, never
repeats a path from the incoming seen-set, and its grown seen-set is
exactly the survivors' paths plus the incoming seen-set. -/
theorem import_surviving_spec (tb : AbsPath) (imp : ImportModel) :
    ∀ (its : List RepoItem) (seen : List String),
      (((import_surviving tb imp its seen).1.map (·.relative_path)).Nodup ∧
        ∀ r ∈ (import_surviving tb imp its seen).1.map (·.relative_path), r ∉ seen) ∧
      (∀ r, r ∈ (import_surviving tb imp its seen).2 ↔
        (r ∈ (import_surviving tb imp its seen).1.map (·.relative_path) ∨ r ∈ seen)) := by
  intro its
  induction its with
  | nil => intro seen; simp [import_surviving]
  | cons item rest ih =>
    intro seen
    by_cases hinc : includes_path imp.paths item.relative_path = true
    · by_cases hseen :
        seen.contains (relStr (remap_path imp.remap (splitSlash item.relative_path))) = true
      · simp only [import_surviving, hinc, hseen]
        simpa using ih seen
      · have hseen' :
            seen.contains (relStr (remap_path imp.remap (splitSlash item.relative_path)))
              = false := by
          cases hb :
            seen.contains (relStr (remap_path imp.remap (splitSlash item.relative_path)))
          · rfl
          · exact absurd hb hseen
        have hnotmem :
            relStr (remap_path imp.remap (splitSlash item.relative_path)) ∉ seen := by
          intro hmem
          rw [← contains_iff_mem_str] at hmem
          rw [hmem] at hseen'
          cases hseen'
        simp only [import_surviving, hinc, hseen']
        obtain ⟨⟨ihnd, ihdisj⟩, ihseen⟩ :=
          ih (relStr (remap_path imp.remap (splitSlash item.relative_path)) :: seen)
        simp only [Bool.not_true, Bool.false_eq_true, if_false, if_true, List.map_cons]
        refine ⟨⟨?_, ?_⟩, ?_⟩
        · refine List.nodup_cons.mpr ⟨?_, ihnd⟩
          intro hmem
          exact (ihdisj _ hmem) (List.mem_cons_self _ _)
        · intro r hr
          rcases List.mem_cons.mp hr with rfl | hr'
          · exact hnotmem
          · intro hmem
            exact (ihdisj r hr') (List.mem_cons_of_mem _ hmem)
        · intro r
          rw [ihseen r]
          simp only [List.mem_cons]
          tauto
    · simp only [import_surviving, hinc]
      simpa using ih seen

/-- The import loop keeps relative paths pairwise distinct and never
repeats a path from the incoming seen-set. -/
theorem items_go_spec (tb : AbsPath) :
    ∀ (imps : List ImportModel) (seen : List String),
      ((items_go tb imps seen).map (·.relative_path)).Nodup ∧
      ∀ r ∈ (items_go tb imps seen).map (·.relative_path), r ∉ seen := by
  intro imps
  induction imps with
  | nil => intro seen; simp [items_go]
  | cons imp rest ih =>
    intro seen
    by_cases hact : (imp.source_exists && imp.collect_ok) = true
    · simp only [items_go, hact, if_true]
      obtain ⟨⟨hnd, hdisj⟩, hseen⟩ := import_surviving_spec tb imp imp.items seen
      obtain ⟨hnd2, hdisj2⟩ := ih (import_surviving tb imp imp.items seen).2
      constructor
      · rw [List.map_append, List.nodup_append]
        refine ⟨hnd, hnd2, ?_⟩
        intro r hr1 hr2
        exact hdisj2 r hr2 ((hseen r).mpr (Or.inl hr1))
      · intro r hr
        rw [List.map_append, List.mem_append] at hr
        rcases hr with hr | hr
        · exact hdisj r hr
        · exact fun hmem => hdisj2 r hr ((hseen r).mpr (Or.inr hmem))
    · have hact' : (imp.source_exists && imp.collect_ok) = false := by
        cases hb : (imp.source_exists && imp.collect_ok)
        · rfl
        · exact absurd hb hact
      simp only [items_go, hact', Bool.false_eq_true, if_false]
      exact ih seen

/-- C9: when the native items' relative paths are pairwise distinct (as
a filesystem walk yields them), one enumeration pass produces no two
items with the same relative path after remapping; the pass is exactly
the native items followed by the imports' surviving items, and no
surviving import item carries a native relative path. -/
theorem claim9_unique_relative_paths (tb : AbsPath) (native : List RepoItem)
    (imports : List ImportModel)
    (hnat : (native.map (·.relative_path)).Nodup) :
    ((items_pass tb native imports).map (·.relative_path)).Nodup ∧
    items_pass tb native imports =
      native ++ items_go tb imports (native.map (·.relative_path)) ∧
    ∀ r ∈ (items_go tb imports (native.map (·.relative_path))).map (·.relative_path),
      r ∉ native.map (·.relative_path) := by
  obtain ⟨hnd, hdisj⟩ := items_go_spec tb imports (native.map (·.relative_path))
  refine ⟨?_, rfl, hdisj⟩
  rw [items_pass, List.map_append, List.nodup_append]
  exact ⟨hnat, hnd, fun r hr1 hr2 => hdisj r hr2 hr1⟩

/-- The classifier on a symlink target, as a decision chain over the
resolved value. -/
theorem classify_target_symlink (fs : Fs) (target repo_path : AbsPath)
    (repl : List AbsPath) (lv : LinkValue)
    (hlink : lookupNode fs target = some (.symlink lv)) :
    classify_target fs target repo_path repl =
      (if !(pexists fs (resolvedOf target lv)) then .brokenSymlink
       else if repo_path.isPrefixOf (resolvedOf target lv) then .symlinkToRepo
       else if repl.any (fun p => p.isPrefixOf (resolvedOf target lv)) then .symlinkToReplaceable
       else .symlinkToExternal (resolvedOf target lv)) := by
  have hsym : isSymlinkB fs target = true := by rw [isSymlinkB, hlink]
  have hread : readLink fs target = some lv := by rw [readLink, hlink]
  simp [classify_target, hsym, hread]

/-- The classifier on a non-symlink target never reports a symlink
state. -/
theorem classify_target_not_symlink (fs : Fs) (target repo_path : AbsPath)
    (repl : List AbsPath) (h : readLink fs target = none) :
    classify_target fs target repo_path repl = .notExists ∨
    classify_target fs target repo_path repl = .directory ∨
    classify_target fs target repo_path repl = .regularFile := by
  unfold classify_target
  split
  · exact Or.inl rfl
  · rw [h]
    by_cases hd : isDirB fs target = true
    · simp [hd]
    · simp [hd]

/-- C7: for every non-template, symlink-strategy item of the repository
(its source under the repository root and not a broken symlink) whose
target is classified as a symlink to an external location, `link_item`
returns `skipped` carrying the resolved external path and mutates
nothing, and `unlink_item` on the same item returns `skipped` and
mutates nothing. -/
theorem claim7_external_symlink_protected (l : Linker) (fs : Fs) (item : RepoItem)
    (repo_path : AbsPath) (vars : List (String × String)) (options : LinkOptions)
    (r : AbsPath)
    (hclass : classify_target fs item.target repo_path l.replaceable_paths =
      .symlinkToExternal r)
    (htmpl : item.is_template = false)
    (hcopy : item.strategy.is_copy = false)
    (hsrc : repo_path.isPrefixOf item.source = true)
    (hsrcok : isSymlinkB fs item.source = true → pexists fs item.source = true) :
    l.link_item fs item vars repo_path options =
      some (.skipped ("external symlink: " ++ showPath r), fs) ∧
    l.unlink_item fs item options = some (.skipped "symlink points elsewhere", fs) := by
  cases hread : readLink fs item.target with
  | none =>
    rcases classify_target_not_symlink fs item.target repo_path l.replaceable_paths hread
      with hc | hc | hc <;> rw [hclass] at hc <;> cases hc
  | some lv =>
    have hlink : lookupNode fs item.target = some (.symlink lv) := by
      cases hl : lookupNode fs item.target with
      | none => simp [readLink, hl] at hread
      | some n =>
        cases n with
        | file c => simp [readLink, hl] at hread
        | dir => simp [readLink, hl] at hread
        | symlink lv' =>
          simp [readLink, hl] at hread
          rw [hread]
    have hsym : isSymlinkB fs item.target = true := by rw [isSymlinkB, hlink]
    have hchar := classify_target_symlink fs item.target repo_path l.replaceable_paths lv hlink
    rw [hclass] at hchar
    have hex : pexists fs (resolvedOf item.target lv) = true := by
      cases hb : pexists fs (resolvedOf item.target lv)
      · rw [hb] at hchar; simp at hchar
      · rfl
    have hpre : repo_path.isPrefixOf (resolvedOf item.target lv) = false := by
      cases hb : repo_path.isPrefixOf (resolvedOf item.target lv)
      · rfl
      · rw [hb, hex] at hchar; simp at hchar
    have hany : (l.replaceable_paths.any
        fun p => p.isPrefixOf (resolvedOf item.target lv)) = false := by
      cases hb : (l.replaceable_paths.any
          fun p => p.isPrefixOf (resolvedOf item.target lv))
      · rfl
      · rw [hb, hex, hpre] at hchar; simp at hchar
    have hres : r = resolvedOf item.target lv := by
      rw [hex, hpre, hany] at hchar
      simpa using hchar
    subst hres
    have hne : resolvedOf item.target lv ≠ item.source := by
      intro heq
      rw [heq, hsrc] at hpre
      cases hpre
    refine ⟨?_, ?_⟩
    · have hchain : l.symlink_item fs item repo_path options =
          some (.skipped ("external symlink: " ++ showPath (resolvedOf item.target lv)),
            fs) := by
        simp [Linker.symlink_item, hclass]
      cases hs : isSymlinkB fs item.source with
      | false => simp [Linker.link_item, htmpl, hcopy, hs, hchain]
      | true => simp [Linker.link_item, htmpl, hcopy, hs, hsrcok hs, hchain]
    · simp [Linker.unlink_item, hsym, hread, hne, htmpl]

/-- C7 witness: an external symlink target with a repository-rooted
source is protected by both operations. -/
theorem claim7_witness :
    Linker.link_item ⟨[], ""⟩
        [(["t"], Node.symlink ⟨true, ["ext", "f"]⟩), (["ext", "f"], Node.file "e"),
         (["repo", "f"], Node.file "s")]
        ⟨["repo", "f"], ["t"], "t", false, .file⟩ [] ["repo"]
        ⟨false, false, false, false⟩ =
      some (.skipped ("external symlink: " ++ showPath ["ext", "f"]),
        [(["t"], Node.symlink ⟨true, ["ext", "f"]⟩), (["ext", "f"], Node.file "e"),
         (["repo", "f"], Node.file "s")]) :=
  (claim7_external_symlink_protected ⟨[], ""⟩
    [(["t"], Node.symlink ⟨true, ["ext", "f"]⟩), (["ext", "f"], Node.file "e"),
     (["repo", "f"], Node.file "s")]
    ⟨["repo", "f"], ["t"], "t", false, .file⟩ ["repo"] [] ⟨false, false, false, false⟩
    ["ext", "f"] (by decide) rfl rfl (by decide) (by decide)).1

/-- A target classified as a plain file or directory holds no symlink. -/
theorem readLink_none_of_classify_plain (fs : Fs) (target repo_path : AbsPath)
    (repl : List AbsPath)
    (h : classify_target fs target repo_path repl = .regularFile ∨
      classify_target fs target repo_path repl = .directory) :
    readLink fs target = none := by
  cases hr : readLink fs target with
  | none => rfl
  | some lv =>
    have hlink : lookupNode fs target = some (.symlink lv) := by
      cases hl : lookupNode fs target with
      | none => simp [readLink, hl] at hr
      | some n =>
        cases n with
        | file c => simp [readLink, hl] at hr
        | dir => simp [readLink, hl] at hr
        | symlink lv' =>
          simp [readLink, hl] at hr
          rw [hr]
    have hchar := classify_target_symlink fs target repo_path repl lv hlink
    rcases h with hc | hc <;> rw [hc] at hchar <;> split_ifs at hchar

theorem isSymlinkB_eq_false_of_readLink_none (fs : Fs) (p : AbsPath)
    (h : readLink fs p = none) : isSymlinkB fs p = false := by
  cases hl : lookupNode fs p with
  | none => simp [isSymlinkB, hl]
  | some n =>
    cases n with
    | symlink lv => simp [readLink, hl] at h
    | file c => simp [isSymlinkB, hl]
    | dir => simp [isSymlinkB, hl]

theorem target_eq_dropLast_append (p : AbsPath) (name : String)
    (h : p.getLast? = some name) : p = p.dropLast ++ [name] := by
  have hne : p ≠ [] := by
    intro hnil
    rw [hnil] at h
    cases h
  have h3 := List.getLast?_eq_getLast p hne
  rw [h3] at h
  have h2 : p.getLast hne = name := by injection h
  rw [← h2]
  exact (List.dropLast_append_getLast hne).symm

theorem string_eq_empty_of_length (s : String) (h : s.length = 0) : s = "" := by
  cases s with
  | mk data =>
    cases data
    · rfl
    · simp [String.length] at h

theorem append_suffix_ne (name s : String) (h : s ≠ "") : name ++ s ≠ name := by
  intro heq
  have hlen := congrArg String.length heq
  rw [String.length_append] at hlen
  have hs : s.length = 0 := by omega
  exact h (string_eq_empty_of_length s hs)

theorem isPrefixOf_eq_false_of_length_eq_ne (p q : AbsPath)
    (hl : p.length = q.length) (hne : p ≠ q) : p.isPrefixOf q = false := by
  cases hb : p.isPrefixOf q
  · rfl
  · have hpre := List.isPrefixOf_iff_prefix.mp hb
    exact absurd (hpre.eq_of_length hl) hne

/-- C6: for every non-template, non-copy item whose target is a plain
regular file or directory (with a filename, a non-empty backup suffix,
a non-symlink source, and the target's directory not an ancestor of the
source), a real run without force skips with the documented reason and
changes nothing, while a real run with force reports `backedUp` naming
the suffixed backup path; afterwards the target is a symlink to the
item's source and the node previously at the target sits unchanged at
the backup path. -/
theorem claim6_force_backup (l : Linker) (fs : Fs) (item : RepoItem)
    (repo_path : AbsPath) (vars : List (String × String)) (options : LinkOptions)
    (name : String)
    (hclass : classify_target fs item.target repo_path l.replaceable_paths = .regularFile ∨
      classify_target fs item.target repo_path l.replaceable_paths = .directory)
    (htmpl : item.is_template = false)
    (hcopy : item.strategy.is_copy = false)
    (hname : item.target.getLast? = some name)
    (hsuffix : l.backup_suffix ≠ "")
    (hsrcl : isSymlinkB fs item.source = false)
    (hpar : (parentOf item.target).isPrefixOf item.source = false)
    (hdry : options.dry_run = false) :
    (options.force = false →
      l.link_item fs item vars repo_path options =
        some (.skipped "file exists (use --force to backup)", fs)) ∧
    (options.force = true →
      l.link_item fs item vars repo_path options =
        some (.backedUp (parentOf item.target ++ [name ++ l.backup_suffix]) .symlink,
          insertNode
            (mkdirAll
              (renamePath fs item.target
                (parentOf item.target ++ [name ++ l.backup_suffix]))
              (parentOf item.target))
            item.target (.symlink ⟨true, item.source⟩)) ∧
      lookupNode
          (insertNode
            (mkdirAll
              (renamePath fs item.target
                (parentOf item.target ++ [name ++ l.backup_suffix]))
              (parentOf item.target))
            item.target (.symlink ⟨true, item.source⟩))
          item.target = some (.symlink ⟨true, item.source⟩) ∧
      lookupNode
          (insertNode
            (mkdirAll
              (renamePath fs item.target
                (parentOf item.target ++ [name ++ l.backup_suffix]))
              (parentOf item.target))
            item.target (.symlink ⟨true, item.source⟩))
          (parentOf item.target ++ [name ++ l.backup_suffix]) =
        lookupNode fs item.target) := by
  have hread : readLink fs item.target = none :=
    readLink_none_of_classify_plain fs item.target repo_path l.replaceable_paths hclass
  have hsymt : isSymlinkB fs item.target = false :=
    isSymlinkB_eq_false_of_readLink_none fs item.target hread
  have htarg_eq : item.target = parentOf item.target ++ [name] :=
    target_eq_dropLast_append item.target name hname
  have hli : l.link_item fs item vars repo_path options =
      l.symlink_item fs item repo_path options := by
    unfold Linker.link_item
    simp [htmpl, hcopy, hsrcl]
  constructor
  · intro hforce
    rw [hli]
    unfold Linker.symlink_item
    rcases hclass with hc | hc <;> rw [hc] <;> simp [hforce]
  · intro hforce
    have hne_bt : parentOf item.target ++ [name ++ l.backup_suffix] ≠ item.target := by
      intro heq
      have h1 : (parentOf item.target ++ [name ++ l.backup_suffix]).getLast? =
          some (name ++ l.backup_suffix) := List.getLast?_concat _
      rw [heq, hname] at h1
      have h2 : name = name ++ l.backup_suffix := by injection h1
      exact append_suffix_ne name l.backup_suffix hsuffix h2.symm
    have hlen_bt : (parentOf item.target ++ [name ++ l.backup_suffix]).length =
        item.target.length := by
      conv_rhs => rw [htarg_eq]
      simp
    have hpre_bt : (parentOf item.target ++ [name ++ l.backup_suffix]).isPrefixOf
        item.target = false :=
      isPrefixOf_eq_false_of_length_eq_ne _ _ hlen_bt hne_bt
    have hpre_tb : item.target.isPrefixOf
        (parentOf item.target ++ [name ++ l.backup_suffix]) = false :=
      isPrefixOf_eq_false_of_length_eq_ne _ _ hlen_bt.symm (fun h => hne_bt h.symm)
    have hts : item.target.isPrefixOf item.source = false := by
      cases hb : item.target.isPrefixOf item.source
      · rfl
      · have h1 : parentOf item.target <+: item.target := ⟨[name], htarg_eq.symm⟩
        have h2 := List.isPrefixOf_iff_prefix.mp hb
        have h3 : (parentOf item.target).isPrefixOf item.source = true :=
          List.isPrefixOf_iff_prefix.mpr (h1.trans h2)
        rw [h3] at hpar
        cases hpar
    have hbs : (parentOf item.target ++ [name ++ l.backup_suffix]).isPrefixOf
        item.source = false := by
      cases hb : (parentOf item.target ++ [name ++ l.backup_suffix]).isPrefixOf item.source
      · rfl
      · have h1 : parentOf item.target <+:
            parentOf item.target ++ [name ++ l.backup_suffix] :=
          ⟨[name ++ l.backup_suffix], rfl⟩
        have h2 := List.isPrefixOf_iff_prefix.mp hb
        have h3 : (parentOf item.target).isPrefixOf item.source = true :=
          List.isPrefixOf_iff_prefix.mpr (h1.trans h2)
        rw [h3] at hpar
        cases hpar
    have hsrc_fs1 : lookupNode
        (renamePath fs item.target (parentOf item.target ++ [name ++ l.backup_suffix]))
        item.source = lookupNode fs item.source :=
      lookupNode_rename_other fs item.target _ item.source hts hbs
    have hsym2 : isSymlinkB
        (mkdirAll
          (renamePath fs item.target (parentOf item.target ++ [name ++ l.backup_suffix]))
          (parentOf item.target))
        item.source = false := by
      unfold isSymlinkB
      rcases lookupNode_mkdirAll_cases
          (renamePath fs item.target (parentOf item.target ++ [name ++ l.backup_suffix]))
          (parentOf item.target) item.source with hc | hc
      · rw [hc, hsrc_fs1]
        unfold isSymlinkB at hsrcl
        exact hsrcl
      · rw [hc]
    have hbp : l.backup_path item.target =
        some (parentOf item.target ++ [name ++ l.backup_suffix]) := by
      simp [Linker.backup_path, hname, parentOf]
    have hcreate : l.create_symlink
        (renamePath fs item.target (parentOf item.target ++ [name ++ l.backup_suffix]))
        item.source item.target options =
        some (.created .symlink,
          insertNode
            (mkdirAll
              (renamePath fs item.target
                (parentOf item.target ++ [name ++ l.backup_suffix]))
              (parentOf item.target))
            item.target (.symlink ⟨true, item.source⟩)) := by
      unfold Linker.create_symlink
      simp [hdry, hsym2]
    have hlink_eq : l.symlink_item fs item repo_path options =
        some (.backedUp (parentOf item.target ++ [name ++ l.backup_suffix]) .symlink,
          insertNode
            (mkdirAll
              (renamePath fs item.target
                (parentOf item.target ++ [name ++ l.backup_suffix]))
              (parentOf item.target))
            item.target (.symlink ⟨true, item.source⟩)) := by
      unfold Linker.symlink_item
      rcases hclass with hc | hc <;> rw [hc] <;>
        simp [hforce, hbp, hdry, hcreate]
    refine ⟨by rw [hli, hlink_eq], lookupNode_insert_self _ _ _, ?_⟩
    rw [lookupNode_insert_ne _ _ _ _ hne_bt]
    have hlen2 : (parentOf item.target).length <
        (parentOf item.target ++ [name ++ l.backup_suffix]).length := by
      simp
    rw [lookupNode_mkdirAll_longer _ _ _ hlen2]
    exact lookupNode_rename_dst fs item.target _ hpre_bt hpre_tb

/-- C6 witness: a regular-file target is backed up under the suffixed
name and replaced by a symlink to the source. -/
theorem claim6_witness :
    Linker.link_item ⟨[], ".bak"⟩
        [(["home", "f"], Node.file "old"), (["repo", "f"], Node.file "new")]
        ⟨["repo", "f"], ["home", "f"], "f", false, .file⟩ [] ["repo"]
        ⟨false, true, false, false⟩ =
      some (.backedUp (parentOf ["home", "f"] ++ ["f" ++ ".bak"]) .symlink,
        insertNode
          (mkdirAll
            (renamePath [(["home", "f"], Node.file "old"), (["repo", "f"], Node.file "new")]
              ["home", "f"] (parentOf ["home", "f"] ++ ["f" ++ ".bak"]))
            (parentOf ["home", "f"]))
          ["home", "f"] (.symlink ⟨true, ["repo", "f"]⟩)) :=
  ((claim6_force_backup ⟨[], ".bak"⟩
    [(["home", "f"], Node.file "old"), (["repo", "f"], Node.file "new")]
    ⟨["repo", "f"], ["home", "f"], "f", false, .file⟩ ["repo"] []
    ⟨false, true, false, false⟩ "f" (Or.inl (by decide)) rfl rfl (by decide)
    (by decide) (by decide) (by decide) rfl).2 rfl).1

/-! ### Dry-run and real-run traces of the link operations (for C1) -/

theorem isSymlinkB_mkdirAll_parent_eq (fs : Fs) (t : AbsPath) :
    isSymlinkB (mkdirAll fs (parentOf t)) t = isSymlinkB fs t := by
  unfold isSymlinkB
  rw [lookupNode_mkdirAll_parent]

theorem pexists_mkdirAll_parent_eq (fs : Fs) (t : AbsPath)
    (h : isSymlinkB fs t = false) :
    pexists (mkdirAll fs (parentOf t)) t = pexists fs t := by
  have h2 : isSymlinkB (mkdirAll fs (parentOf t)) t = false := by
    rw [isSymlinkB_mkdirAll_parent_eq]
    exact h
  rw [pexists_of_not_symlink _ _ h, pexists_of_not_symlink _ _ h2,
    lookupNode_mkdirAll_parent]

theorem files_are_identical_mkdirAll (fs : Fs) (q s t : AbsPath) (b : Bool)
    (h : files_are_identical fs s t = some b) :
    files_are_identical (mkdirAll fs q) s t = some b := by
  unfold files_are_identical at h ⊢
  cases hs : readToString fs s with
  | none => rw [hs] at h; simp at h
  | some a =>
    rw [hs] at h
    cases htt : readToString fs t with
    | none => rw [htt] at h; simp at h
    | some c =>
      rw [htt] at h
      rw [readToString_mkdirAll _ q _ _ hs, readToString_mkdirAll _ q _ _ htt]
      exact h

theorem lookup_file_of_read_not_symlink (fs : Fs) (p : AbsPath) (c : String)
    (hr : readToString fs p = some c) (hs : isSymlinkB fs p = false) :
    lookupNode fs p = some (.file c) := by
  rw [readToString] at hr
  cases hl : lookupNode fs p with
  | none =>
    simp only [defaultFuel, resolveNode, hl] at hr
    exact absurd hr (by simp)
  | some n =>
    cases n with
    | symlink lv => rw [isSymlinkB, hl] at hs; cases hs
    | dir =>
      simp only [defaultFuel, resolveNode, hl] at hr
      exact absurd hr (by simp)
    | file c' =>
      simp only [defaultFuel, resolveNode, hl] at hr
      injection hr with h'
      rw [h']

/-- `copy_item` under dry-run, as a pure decision chain over the
original filesystem. -/
theorem copy_item_dry_eq (l : Linker) (fs : Fs) (item : RepoItem) (o : LinkOptions)
    (hdry : o.dry_run = true) :
    l.copy_item fs item o =
      (if isSymlinkB fs item.target then some (.created .copy, fs)
       else if pexists fs item.target then
         if isDirB fs item.source then some (.created .copy, fs)
         else
           match files_are_identical fs item.source item.target with
           | none => none
           | some true => some (.alreadyCorrect .copy, fs)
           | some false => some (.created .copy, fs)
       else some (.created .copy, fs)) := by
  cases hs : isSymlinkB fs item.target with
  | true => simp [Linker.copy_item, copyItemRest, hdry, hs]
  | false =>
    cases he : pexists fs item.target with
    | false => simp [Linker.copy_item, copyItemRest, hdry, hs, he]
    | true =>
      cases hd : isDirB fs item.source with
      | true => simp [Linker.copy_item, copyItemRest, hdry, hs, he, hd]
      | false =>
        cases hfi : files_are_identical fs item.source item.target with
        | none => simp [Linker.copy_item, copyItemRest, hdry, hs, he, hd, hfi]
        | some b =>
          cases b <;> simp [Linker.copy_item, copyItemRest, hdry, hs, he, hd, hfi]

theorem copyItemRest_real_shape (fs : Fs) (item : RepoItem) (o : LinkOptions)
    (hdry : o.dry_run = false) (r : LinkResult) (fs' : Fs)
    (h : copyItemRest fs item o = some (r, fs')) : r = .created .copy := by
  unfold copyItemRest at h
  rw [hdry] at h
  simp only [Bool.false_eq_true, if_false] at h
  split at h
  · injection h with h'
    injection h' with h1 h2
    exact h1.symm
  · cases hc : copyFileWithPerms fs item.source item.target with
    | none => rw [hc] at h; simp at h
    | some fs'' =>
      rw [hc] at h
      simp at h
      exact h.1.symm

/-- `copy_item` under a real run: the branch conditions, re-expressed on
the pre-state where the parent-directory creation cannot change them. -/
theorem copy_item_real_eq (l : Linker) (fs : Fs) (item : RepoItem) (o : LinkOptions)
    (hdry : o.dry_run = false) :
    l.copy_item fs item o =
      (if isSymlinkB fs item.target then
        match removeFile (mkdirAll fs (parentOf item.target)) item.target with
        | none => none
        | some fs' => copyItemRest fs' item o
       else if pexists fs item.target then
         if isDirB (mkdirAll fs (parentOf item.target)) item.source then
           match removeDirAll (mkdirAll fs (parentOf item.target)) item.target with
           | none => none
           | some fs' => copyItemRest fs' item o
         else
           match files_are_identical (mkdirAll fs (parentOf item.target))
               item.source item.target with
           | none => none
           | some true => some (.alreadyCorrect .copy, mkdirAll fs (parentOf item.target))
           | some false => copyItemRest (mkdirAll fs (parentOf item.target)) item o
       else copyItemRest (mkdirAll fs (parentOf item.target)) item o) := by
  have hsym := isSymlinkB_mkdirAll_parent_eq fs item.target
  cases hs : isSymlinkB fs item.target with
  | true =>
    rw [hs] at hsym
    cases hrm : removeFile (mkdirAll fs (parentOf item.target)) item.target with
    | none => simp [Linker.copy_item, hdry, hsym, hrm]
    | some fs' => simp [Linker.copy_item, hdry, hsym, hrm]
  | false =>
    rw [hs] at hsym
    have hex := pexists_mkdirAll_parent_eq fs item.target hs
    cases he : pexists fs item.target with
    | false =>
      rw [he] at hex
      simp [Linker.copy_item, hdry, hsym, hex]
    | true =>
      rw [he] at hex
      cases hd : isDirB (mkdirAll fs (parentOf item.target)) item.source with
      | true =>
        cases hrm : removeDirAll (mkdirAll fs (parentOf item.target)) item.target with
        | none => simp [Linker.copy_item, hdry, hsym, hex, hd, hrm]
        | some fs' => simp [Linker.copy_item, hdry, hsym, hex, hd, hrm]
      | false =>
        cases hfi : files_are_identical (mkdirAll fs (parentOf item.target))
            item.source item.target with
        | none => simp [Linker.copy_item, hdry, hsym, hex, hd, hfi]
        | some b =>
          cases b <;> simp [Linker.copy_item, hdry, hsym, hex, hd, hfi]

theorem files_are_identical_some (fs : Fs) (s t : AbsPath) (b : Bool)
    (h : files_are_identical fs s t = some b) :
    ∃ a c, readToString fs s = some a ∧ readToString fs t = some c ∧ b = (a == c) := by
  unfold files_are_identical at h
  cases hs : readToString fs s with
  | none => rw [hs] at h; exact absurd h (by simp)
  | some a =>
    rw [hs] at h
    cases htt : readToString fs t with
    | none => rw [htt] at h; exact absurd h (by simp)
    | some c =>
      rw [htt] at h
      injection h with h'
      exact ⟨a, c, rfl, rfl, h'.symm⟩

/-- Dry-run and real-run `copy_item` agree on the result variant, and
the dry run leaves the filesystem unchanged. -/
theorem copy_item_variant_agreement (l : Linker) (fs : Fs) (item : RepoItem)
    (o o' : LinkOptions) (hd : o.dry_run = true) (hd' : o'.dry_run = false)
    (r1 : LinkResult) (fs1 : Fs) (r2 : LinkResult) (fs2 : Fs)
    (hreal : l.copy_item fs item o' = some (r1, fs1))
    (hdry : l.copy_item fs item o = some (r2, fs2)) :
    r2.variant = r1.variant ∧ fs2 = fs := by
  rw [copy_item_real_eq l fs item o' hd'] at hreal
  rw [copy_item_dry_eq l fs item o hd] at hdry
  cases hs : isSymlinkB fs item.target with
  | true =>
    rw [hs] at hreal hdry
    simp only [if_pos rfl] at hreal hdry
    obtain ⟨hr2, hfs2⟩ : LinkResult.created .copy = r2 ∧ fs = fs2 := by simpa using hdry
    cases hrm : removeFile (mkdirAll fs (parentOf item.target)) item.target with
    | none => rw [hrm] at hreal; exact absurd hreal (by simp)
    | some fs' =>
      rw [hrm] at hreal
      have hshape := copyItemRest_real_shape fs' item o' hd' r1 fs1 hreal
      rw [← hr2, hshape]
      exact ⟨rfl, hfs2.symm⟩
  | false =>
    rw [hs] at hreal hdry
    simp only [Bool.false_eq_true, if_false] at hreal hdry
    cases he : pexists fs item.target with
    | false =>
      rw [he] at hreal hdry
      simp only [Bool.false_eq_true, if_false] at hreal hdry
      obtain ⟨hr2, hfs2⟩ : LinkResult.created .copy = r2 ∧ fs = fs2 := by simpa using hdry
      have hshape := copyItemRest_real_shape _ item o' hd' r1 fs1 hreal
      rw [← hr2, hshape]
      exact ⟨rfl, hfs2.symm⟩
    | true =>
      rw [he] at hreal hdry
      simp only [if_pos rfl] at hreal hdry
      cases hd2 : isDirB fs item.source with
      | true =>
        rw [hd2] at hdry
        simp only [if_pos rfl] at hdry
        obtain ⟨hr2, hfs2⟩ : LinkResult.created .copy = r2 ∧ fs = fs2 := by simpa using hdry
        have hd3 : isDirB (mkdirAll fs (parentOf item.target)) item.source = true :=
          isDirB_mkdirAll fs (parentOf item.target) item.source hd2
        rw [hd3] at hreal
        simp only [if_pos rfl] at hreal
        cases hrm : removeDirAll (mkdirAll fs (parentOf item.target)) item.target with
        | none => rw [hrm] at hreal; exact absurd hreal (by simp)
        | some fs' =>
          rw [hrm] at hreal
          have hshape := copyItemRest_real_shape fs' item o' hd' r1 fs1 hreal
          rw [← hr2, hshape]
          exact ⟨rfl, hfs2.symm⟩
      | false =>
        rw [hd2] at hdry
        simp only [Bool.false_eq_true, if_false] at hdry
        cases hfi : files_are_identical fs item.source item.target with
        | none => rw [hfi] at hdry; exact absurd hdry (by simp)
        | some b =>
          rw [hfi] at hdry
          obtain ⟨a, c, hrs, hrt, hb⟩ := files_are_identical_some fs _ _ b hfi
          cases hd3 : isDirB (mkdirAll fs (parentOf item.target)) item.source with
          | true =>
            rw [hd3] at hreal
            simp only [if_pos rfl] at hreal
            have hlt : lookupNode fs item.target = some (.file c) :=
              lookup_file_of_read_not_symlink fs item.target c hrt hs
            have hlt2 : lookupNode (mkdirAll fs (parentOf item.target)) item.target =
                some (.file c) := by
              rw [lookupNode_mkdirAll_parent]
              exact hlt
            have hrm : removeDirAll (mkdirAll fs (parentOf item.target)) item.target =
                none := by
              unfold removeDirAll
              rw [hlt2]
            rw [hrm] at hreal
            exact absurd hreal (by simp)
          | false =>
            rw [hd3] at hreal
            simp only [Bool.false_eq_true, if_false] at hreal
            have hfi2 : files_are_identical (mkdirAll fs (parentOf item.target))
                item.source item.target = some b :=
              files_are_identical_mkdirAll fs _ _ _ b hfi
            rw [hfi2] at hreal
            cases b with
            | true =>
              obtain ⟨hr2, hfs2⟩ : LinkResult.alreadyCorrect .copy = r2 ∧ fs = fs2 := by
                simpa using hdry
              obtain ⟨hr1, _⟩ : LinkResult.alreadyCorrect .copy = r1 ∧
                  mkdirAll fs (parentOf item.target) = fs1 := by simpa using hreal
              rw [← hr2, ← hr1]
              exact ⟨rfl, hfs2.symm⟩
            | false =>
              obtain ⟨hr2, hfs2⟩ : LinkResult.created .copy = r2 ∧ fs = fs2 := by
                simpa using hdry
              have hshape := copyItemRest_real_shape _ item o' hd' r1 fs1 hreal
              rw [← hr2, hshape]
              exact ⟨rfl, hfs2.symm⟩

theorem create_symlink_dry (l : Linker) (fs : Fs) (source target : AbsPath)
    (o : LinkOptions) (hdry : o.dry_run = true) :
    l.create_symlink fs source target o = some (.created .symlink, fs) := by
  unfold Linker.create_symlink
  simp [hdry]

theorem create_symlink_real_shape (l : Linker) (fs : Fs) (source target : AbsPath)
    (o : LinkOptions) (r : LinkResult) (fs' : Fs)
    (h : l.create_symlink fs source target o = some (r, fs')) :
    r = .created .symlink := by
  unfold Linker.create_symlink at h
  by_cases hd : o.dry_run = true
  · rw [if_pos hd] at h
    simp at h
    exact h.1.symm
  · rw [if_neg hd] at h
    rcases hcan : (if isSymlinkB (mkdirAll fs (parentOf target)) source = true then
        canonicalize (mkdirAll fs (parentOf target)) source
      else some source) with _ | rs
    · rw [hcan] at h
      exact absurd h (by simp)
    · rw [hcan] at h
      simp at h
      exact h.1.symm

/-- `symlink_item` under dry-run, as a pure decision chain. -/
theorem symlink_item_dry_eq (l : Linker) (fs : Fs) (item : RepoItem)
    (repo_path : AbsPath) (o : LinkOptions) (hdry : o.dry_run = true) :
    l.symlink_item fs item repo_path o =
      (match classify_target fs item.target repo_path l.replaceable_paths with
       | .notExists | .symlinkToRepo | .symlinkToReplaceable | .brokenSymlink =>
         some (.created .symlink, fs)
       | .symlinkToExternal p => some (.skipped ("external symlink: " ++ showPath p), fs)
       | .regularFile | .directory =>
         if o.force then
           match l.backup_path item.target with
           | none => none
           | some backup => some (.backedUp backup .symlink, fs)
         else some (.skipped "file exists (use --force to backup)", fs)) := by
  have hcs := create_symlink_dry l fs item.source item.target o hdry
  unfold Linker.symlink_item
  cases hc : classify_target fs item.target repo_path l.replaceable_paths with
  | notExists => simp [hcs]
  | symlinkToRepo => simp [hdry, hcs]
  | symlinkToReplaceable => simp [hdry, hcs]
  | brokenSymlink => simp [hdry, hcs]
  | symlinkToExternal p => rfl
  | regularFile =>
    cases hf : o.force with
    | false => simp [hf]
    | true =>
      cases hb : l.backup_path item.target with
      | none => simp [hf, hb]
      | some backup => simp [hf, hb, hdry, hcs]
  | directory =>
    cases hf : o.force with
    | false => simp [hf]
    | true =>
      cases hb : l.backup_path item.target with
      | none => simp [hf, hb]
      | some backup => simp [hf, hb, hdry, hcs]

/-- The result shapes a real `symlink_item` run can produce, per
classification. -/
theorem symlink_item_real_shape (l : Linker) (fs : Fs) (item : RepoItem)
    (repo_path : AbsPath) (o : LinkOptions) (r : LinkResult) (fs1 : Fs)
    (h : l.symlink_item fs item repo_path o = some (r, fs1)) :
    (match classify_target fs item.target repo_path l.replaceable_paths with
     | .notExists | .symlinkToRepo | .symlinkToReplaceable | .brokenSymlink =>
       r = .created .symlink
     | .symlinkToExternal p => r = .skipped ("external symlink: " ++ showPath p)
     | .regularFile | .directory =>
       if o.force then ∃ b, r = .backedUp b .symlink
       else r = .skipped "file exists (use --force to backup)") := by
  unfold Linker.symlink_item at h
  cases hc : classify_target fs item.target repo_path l.replaceable_paths <;>
    rw [hc] at h
  case notExists => exact create_symlink_real_shape l fs _ _ o r fs1 h
  case symlinkToRepo | symlinkToReplaceable | brokenSymlink =>
    rcases hrm : (if o.dry_run = true then some fs else removeFile fs item.target)
      with _ | fs'
    · rw [hrm] at h
      exact absurd h (by simp)
    · rw [hrm] at h
      exact create_symlink_real_shape l fs' _ _ o r fs1 h
  case symlinkToExternal p =>
    simp at h
    exact h.1.symm
  case regularFile | directory =>
    cases hf : o.force with
    | false =>
      rw [hf] at h
      simp at h
      simpa [hf] using h.1.symm
    | true =>
      rw [hf] at h
      rcases hb : l.backup_path item.target with _ | backup
      · rw [hb] at h
        exact absurd h (by simp)
      · rw [hb] at h
        simp at h
        split at h
        · exact absurd h (by simp)
        · simp at h
          simp [hf]
          exact ⟨backup, h.1.symm⟩

/-- Dry-run and real-run `symlink_item` agree on the result variant, and
the dry run leaves the filesystem unchanged. -/
theorem symlink_item_agreement (l : Linker) (fs : Fs) (item : RepoItem)
    (repo_path : AbsPath) (o o' : LinkOptions)
    (hd : o.dry_run = true) (hd' : o'.dry_run = false) (hforce : o.force = o'.force)
    (r1 : LinkResult) (fs1 : Fs) (r2 : LinkResult) (fs2 : Fs)
    (hreal : l.symlink_item fs item repo_path o' = some (r1, fs1))
    (hdry : l.symlink_item fs item repo_path o = some (r2, fs2)) :
    r2.variant = r1.variant ∧ fs2 = fs := by
  rw [symlink_item_dry_eq l fs item repo_path o hd] at hdry
  have hshape := symlink_item_real_shape l fs item repo_path o' r1 fs1 hreal
  cases hc : classify_target fs item.target repo_path l.replaceable_paths <;>
    rw [hc] at hdry hshape
  case notExists | symlinkToRepo | symlinkToReplaceable | brokenSymlink =>
    obtain ⟨hr2, hfs2⟩ : LinkResult.created .symlink = r2 ∧ fs = fs2 := by simpa using hdry
    rw [← hr2, hshape]
    exact ⟨rfl, hfs2.symm⟩
  case symlinkToExternal p =>
    obtain ⟨hr2, hfs2⟩ :
        LinkResult.skipped ("external symlink: " ++ showPath p) = r2 ∧ fs = fs2 := by
      simpa using hdry
    rw [← hr2, hshape]
    exact ⟨rfl, hfs2.symm⟩
  case regularFile | directory =>
    cases hf : o.force with
    | false =>
      rw [hf] at hdry
      rw [hforce] at hf
      rw [hf] at hshape
      simp only [Bool.false_eq_true, if_false] at hdry hshape
      obtain ⟨hr2, hfs2⟩ :
          LinkResult.skipped "file exists (use --force to backup)" = r2 ∧ fs = fs2 := by
        simpa using hdry
      rw [← hr2, hshape]
      exact ⟨rfl, hfs2.symm⟩
    | true =>
      rw [hf] at hdry
      rw [hforce] at hf
      rw [hf] at hshape
      simp only [if_pos rfl] at hdry hshape
      cases hb : l.backup_path item.target with
      | none => rw [hb] at hdry; exact absurd hdry (by simp)
      | some backup =>
        rw [hb] at hdry
        obtain ⟨hr2, hfs2⟩ :
            LinkResult.backedUp backup .symlink = r2 ∧ fs = fs2 := by simpa using hdry
        obtain ⟨b', hb'⟩ := hshape
        rw [← hr2, hb']
        exact ⟨rfl, hfs2.symm⟩

/-- `render_template` under dry-run: report `created` without touching
the filesystem, before looking at the target. -/
theorem render_template_dry_eq (l : Linker) (fs : Fs) (item : RepoItem)
    (vars : List (String × String)) (o : LinkOptions) (hdry : o.dry_run = true) :
    l.render_template fs item vars o =
      (match readToString fs item.source with
       | none => none
       | some _ =>
         some (.created (if item.strategy.is_copy then ManifestEntry.copy
           else ManifestEntry.rendered), fs)) := by
  unfold Linker.render_template
  cases hr : readToString fs item.source <;> simp [hr, hdry]

/-- The result shapes a real `render_template` run can produce. -/
theorem render_template_real_shape (l : Linker) (fs : Fs) (item : RepoItem)
    (vars : List (String × String)) (o : LinkOptions) (hdry : o.dry_run = false)
    (r : LinkResult) (fs1 : Fs)
    (h : l.render_template fs item vars o = some (r, fs1)) :
    (∃ e, r = .created e) ∨ ∃ e, r = .alreadyCorrect e := by
  unfold Linker.render_template at h
  cases hr : readToString fs item.source with
  | none => rw [hr] at h; exact absurd h (by simp)
  | some content =>
    rw [hr] at h
    simp only [Option.bind, hdry, Bool.false_eq_true, if_false] at h
    repeat' split at h
    all_goals simp at h
    all_goals try exact Or.inl ⟨_, h.1.symm⟩
    all_goals
      by_cases heq : (readToString (mkdirAll fs (parentOf item.target)) item.target).getD ""
        = render_string content vars
    all_goals
      first
      | (rw [if_pos heq] at h; simp at h; exact Or.inr ⟨_, h.1.symm⟩)
      | (rw [if_neg heq] at h; simp at h; exact Or.inl ⟨_, h.1.symm⟩)

theorem link_item_template_eq (l : Linker) (fs : Fs) (item : RepoItem)
    (vars : List (String × String)) (repo_path : AbsPath) (o : LinkOptions)
    (ht : item.is_template = true) :
    l.link_item fs item vars repo_path o = l.render_template fs item vars o := by
  unfold Linker.link_item
  rw [ht]
  simp

theorem link_item_broken_eq (l : Linker) (fs : Fs) (item : RepoItem)
    (vars : List (String × String)) (repo_path : AbsPath) (o : LinkOptions)
    (ht : item.is_template = false)
    (hb : (isSymlinkB fs item.source && !(pexists fs item.source)) = true) :
    l.link_item fs item vars repo_path o =
      some (.skipped "source is broken symlink", fs) := by
  unfold Linker.link_item
  rw [ht, hb]
  simp

theorem link_item_copy_eq (l : Linker) (fs : Fs) (item : RepoItem)
    (vars : List (String × String)) (repo_path : AbsPath) (o : LinkOptions)
    (ht : item.is_template = false)
    (hb : (isSymlinkB fs item.source && !(pexists fs item.source)) = false)
    (hc : item.strategy.is_copy = true) :
    l.link_item fs item vars repo_path o = l.copy_item fs item o := by
  unfold Linker.link_item
  rw [ht, hb, hc]
  simp

theorem link_item_symlink_eq (l : Linker) (fs : Fs) (item : RepoItem)
    (vars : List (String × String)) (repo_path : AbsPath) (o : LinkOptions)
    (ht : item.is_template = false)
    (hb : (isSymlinkB fs item.source && !(pexists fs item.source)) = false)
    (hc : item.strategy.is_copy = false) :
    l.link_item fs item vars repo_path o = l.symlink_item fs item repo_path o := by
  unfold Linker.link_item
  rw [ht, hb, hc]
  simp

/-- A dry `copy_item` run that returns leaves the filesystem unchanged. -/
theorem copy_item_dry_fs (l : Linker) (fs : Fs) (item : RepoItem) (o : LinkOptions)
    (hd : o.dry_run = true) (r2 : LinkResult) (fs2 : Fs)
    (h : l.copy_item fs item o = some (r2, fs2)) : fs2 = fs := by
  rw [copy_item_dry_eq l fs item o hd] at h
  repeat' split at h
  all_goals simp at h
  all_goals exact h.2.symm

/-- A dry `symlink_item` run that returns leaves the filesystem
unchanged. -/
theorem symlink_item_dry_fs (l : Linker) (fs : Fs) (item : RepoItem)
    (repo_path : AbsPath) (o : LinkOptions)
    (hd : o.dry_run = true) (r2 : LinkResult) (fs2 : Fs)
    (h : l.symlink_item fs item repo_path o = some (r2, fs2)) : fs2 = fs := by
  rw [symlink_item_dry_eq l fs item repo_path o hd] at h
  repeat' split at h
  all_goals simp at h
  all_goals exact h.2.symm

/-- C1 amended: a dry-run `link_item` that returns a result leaves the
filesystem byte-for-byte unchanged, and whenever the corresponding real
run also returns a result, the two return the same result variant —
except for a template item whose target already holds exactly the
rendered content, where the real run reports `alreadyCorrect` while the
dry run reports `created` (the dry-run early return precedes the
content comparison); in particular the equivalence is unconditional for
copy-strategy and symlink-strategy items. -/
theorem claim1_amended_dry_run_equivalence (l : Linker) (fs : Fs) (item : RepoItem)
    (vars : List (String × String)) (repo_path : AbsPath) (options : LinkOptions)
    (r2 : LinkResult) (fs2 : Fs)
    (hdry : l.link_item fs item vars repo_path { options with dry_run := true } =
      some (r2, fs2)) :
    fs2 = fs ∧
    ∀ r1 fs1,
      l.link_item fs item vars repo_path { options with dry_run := false } =
        some (r1, fs1) →
      (r2.variant = r1.variant ∨
        (item.is_template = true ∧ r1.variant = .alreadyCorrect ∧
          r2.variant = .created)) := by
  cases ht : item.is_template with
  | true =>
    rw [link_item_template_eq _ _ _ _ _ _ ht] at hdry
    rw [render_template_dry_eq _ _ _ _ _ rfl] at hdry
    cases hr : readToString fs item.source with
    | none => rw [hr] at hdry; exact absurd hdry (by simp)
    | some content =>
      rw [hr] at hdry
      obtain ⟨hr2, hfs2⟩ :
          LinkResult.created
              (if item.strategy.is_copy then ManifestEntry.copy
               else ManifestEntry.rendered) = r2 ∧ fs = fs2 := by
        simpa using hdry
      refine ⟨hfs2.symm, ?_⟩
      intro r1 fs1 hreal
      rw [link_item_template_eq _ _ _ _ _ _ ht] at hreal
      rcases render_template_real_shape l fs item vars _ rfl r1 fs1 hreal with
        ⟨e, he⟩ | ⟨e, he⟩
      · left
        rw [← hr2, he]
        rfl
      · right
        exact ⟨rfl, by rw [he]; rfl, by rw [← hr2]; rfl⟩
  | false =>
    cases hbk : (isSymlinkB fs item.source && !(pexists fs item.source)) with
    | true =>
      rw [link_item_broken_eq _ _ _ _ _ _ ht hbk] at hdry
      obtain ⟨hr2, hfs2⟩ :
          LinkResult.skipped "source is broken symlink" = r2 ∧ fs = fs2 := by
        simpa using hdry
      refine ⟨hfs2.symm, ?_⟩
      intro r1 fs1 hreal
      rw [link_item_broken_eq _ _ _ _ _ _ ht hbk] at hreal
      obtain ⟨hr1, _⟩ :
          LinkResult.skipped "source is broken symlink" = r1 ∧ fs = fs1 := by
        simpa using hreal
      left
      rw [← hr2, ← hr1]
    | false =>
      cases hcp : item.strategy.is_copy with
      | true =>
        rw [link_item_copy_eq _ _ _ _ _ _ ht hbk hcp] at hdry
        refine ⟨copy_item_dry_fs l fs item _ rfl r2 fs2 hdry, ?_⟩
        intro r1 fs1 hreal
        rw [link_item_copy_eq _ _ _ _ _ _ ht hbk hcp] at hreal
        left
        exact (copy_item_variant_agreement l fs item
          { options with dry_run := true } { options with dry_run := false }
          rfl rfl r1 fs1 r2 fs2 hreal hdry).1
      | false =>
        rw [link_item_symlink_eq _ _ _ _ _ _ ht hbk hcp] at hdry
        refine ⟨symlink_item_dry_fs l fs item repo_path _ rfl r2 fs2 hdry, ?_⟩
        intro r1 fs1 hreal
        rw [link_item_symlink_eq _ _ _ _ _ _ ht hbk hcp] at hreal
        left
        exact (symlink_item_agreement l fs item repo_path
          { options with dry_run := true } { options with dry_run := false }
          rfl rfl rfl r1 fs1 r2 fs2 hreal hdry).1

/-- C1 counterexample: a template item whose target already holds
exactly the rendered content — the dry run reports `created` where the
real run reports `alreadyCorrect`, so dry-run is not variant-equivalent
as claimed. -/
theorem claim1_counterexample :
    (Linker.link_item ⟨[], ""⟩
        [(["repo", "f.tmpl"], Node.file "hello"), (["home", "f"], Node.file "hello")]
        ⟨["repo", "f.tmpl"], ["home", "f"], "f.tmpl", true, .file⟩ [] ["repo"]
        ⟨true, false, false, false⟩).map (fun p => p.1.variant) = some .created ∧
    (Linker.link_item ⟨[], ""⟩
        [(["repo", "f.tmpl"], Node.file "hello"), (["home", "f"], Node.file "hello")]
        ⟨["repo", "f.tmpl"], ["home", "f"], "f.tmpl", true, .file⟩ [] ["repo"]
        ⟨false, false, false, false⟩).map (fun p => p.1.variant) = some .alreadyCorrect ∧
    LinkVariant.created ≠ LinkVariant.alreadyCorrect := by
  exact ⟨by decide, by decide, by decide⟩

/-- C1 amended witness: the amended equivalence at a plain file item
with an absent target — the dry run changes nothing and both runs
report `created`. -/
theorem claim1_amended_witness :
    ([(["repo", "f"], Node.file "x")] : Fs) = [(["repo", "f"], Node.file "x")] ∧
    ((LinkResult.created ManifestEntry.symlink).variant =
        (LinkResult.created ManifestEntry.symlink).variant ∨
      ((false : Bool) = true ∧
        (LinkResult.created ManifestEntry.symlink).variant = .alreadyCorrect ∧
        (LinkResult.created ManifestEntry.symlink).variant = .created)) := by
  have h := claim1_amended_dry_run_equivalence ⟨[], ""⟩ [(["repo", "f"], Node.file "x")]
    ⟨["repo", "f"], ["home", "f"], "f", false, .file⟩ [] ["repo"]
    ⟨false, false, false, false⟩ (.created .symlink) [(["repo", "f"], Node.file "x")]
    (by decide)
  exact ⟨h.1, h.2 (.created .symlink)
    [(["home", "f"], Node.symlink ⟨true, ["repo", "f"]⟩), (["home"], Node.dir),
     (["repo", "f"], Node.file "x")] (by decide)⟩

/-- C9 witness: a native item plus an import whose first item is
remapped and survives and whose second collides with the native path and
is dropped; the resulting relative paths are pairwise distinct. -/
theorem claim9_witness :
    ((items_pass ["h"]
        [⟨["r", "a"], ["h", "a"], "a", false, .file⟩]
        [⟨["*"], [(["commands"], [".claude", "commands"])], true, true,
          [⟨["i", "commands", "x.md"], ["h2", "commands", "x.md"], "commands/x.md",
             false, .file⟩,
           ⟨["i", "a"], ["h2", "a"], "a", false, .file⟩]⟩]).map (·.relative_path)).Nodup :=
  (claim9_unique_relative_paths ["h"]
    [⟨["r", "a"], ["h", "a"], "a", false, .file⟩]
    [⟨["*"], [(["commands"], [".claude", "commands"])], true, true,
      [⟨["i", "commands", "x.md"], ["h2", "commands", "x.md"], "commands/x.md",
         false, .file⟩,
       ⟨["i", "a"], ["h2", "a"], "a", false, .file⟩]⟩] (by decide)).1

end Homie
